import Mathlib

/- Verification of the direct-messaging subsystem of the repository:
src/hooks/useDirectMessages.ts together with the row-level-security (RLS)
rules of the direct_messages table in
supabase/migrations/20260104081115_78b63133-3584-4b22-bcb0-f57e8cd4863c.sql.

Embedding conventions: opaque uuid identifiers become Nat, timestamps become
Nat, message bodies stay String.  The durable direct_messages table is a
List Message in insertion order.  A supabase query result is a list handed to
the client functions; the query contract (row filter, ordering) appears as a
hypothesis of the theorems that consume it. -/

/-- Embedding of one `direct_messages` row (the table created by the
migration; the `DirectMessage` interface of useDirectMessages.ts).  The
optional `sender_name`/`recipient_name` fields are presentation-only
enrichment from the profiles table and are omitted. -/
structure Message where
  id : Nat
  sender_id : Nat
  recipient_id : Nat
  message : String
  is_read : Bool
  created_at : Nat
deriving DecidableEq, Repr

/-- Embedding of the `Conversation` interface of useDirectMessages.ts.  The
presentation-only fields `doctor_name`, `hospital_name` and `specialty`
(filled from the profiles and hospitals tables purely for display) are
omitted. -/
structure Conversation where
  doctor_id : Nat
  last_message : String
  last_message_time : Nat
  unread_count : Nat
deriving DecidableEq, Repr

/-- Row filter of the conversation query (useDirectMessages.ts line 44):
`.or(sender_id.eq.userId,recipient_id.eq.userId)`. -/
def involvedb (userId : Nat) (m : Message) : Bool :=
  m.sender_id == userId || m.recipient_id == userId

/-- Counterpart of a message relative to the current user
(useDirectMessages.ts line 81). -/
def otherDoctor (userId : Nat) (msg : Message) : Nat :=
  if msg.sender_id == userId then msg.recipient_id else msg.sender_id

/-- One step of the forEach loop that builds the conversation map
(useDirectMessages.ts lines 80-101).  The JavaScript `Map` iterates in
insertion order, so it is embedded as a list of conversations with distinct
`doctor_id` keys: a conversation is appended on the first message seen for
its counterpart, and the in-place `conv.unread_count += 1` becomes a map
over the list touching the unique entry with that key. -/
def addMsg (userId : Nat) (acc : List Conversation) (msg : Message) : List Conversation :=
  let otherDoctorId := otherDoctor userId msg
  let acc1 :=
    if acc.any (fun c => c.doctor_id == otherDoctorId) then acc
    else acc ++ [{ doctor_id := otherDoctorId, last_message := msg.message,
                   last_message_time := msg.created_at, unread_count := 0 }]
  if msg.recipient_id == userId && !msg.is_read then
    acc1.map (fun c =>
      if c.doctor_id == otherDoctorId then { c with unread_count := c.unread_count + 1 } else c)
  else acc1

/-- Embedding of fetchConversations (useDirectMessages.ts lines 33-109),
applied to the result `allMessages` of the conversation query (all messages
involving the current user, ordered by created_at descending).  The
early-return for an empty result (lines 49-52) coincides with the fold. -/
def fetchConversations (userId : Nat) (allMessages : List Message) : List Conversation :=
  allMessages.foldl (addMsg userId) []

/-- Leading and trailing whitespace removal on a character list, structurally
recursive so that the kernel can evaluate it. -/
def trimChars (l : List Char) : List Char :=
  ((l.dropWhile Char.isWhitespace).reverse.dropWhile Char.isWhitespace).reverse

/-- Embedding of the JavaScript `String.prototype.trim` used by sendMessage
(useDirectMessages.ts lines 161 and 172). -/
def jsTrim (s : String) : String := String.mk (trimChars s.data)

/-- Embedding of sendMessage (useDirectMessages.ts lines 160-189).  The
guard `if (!messageText.trim()) return false` fires exactly when the body is
empty after trimming (the empty string is the only falsy trim result).  On
success the client inserts a row with the authenticated user as sender (so
the RLS insert policy WITH CHECK sender_id = auth.uid() is satisfied by
construction), the trimmed body, is_read defaulting to false, and a
server-assigned id and created_at, passed here as `newId` and `newTime`. -/
def sendMessage (userId recipientId : Nat) (messageText : String) (newId newTime : Nat)
    (store : List Message) : Bool × List Message :=
  if jsTrim messageText == "" then (false, store)
  else (true, store ++ [{ id := newId, sender_id := userId, recipient_id := recipientId,
                          message := jsTrim messageText, is_read := false, created_at := newTime }])

/-- Effect of the supabase update `update({ is_read: true }).in('id', ids)`
on a single row, under the RLS update policy of the migration
(USING recipient_id = auth.uid()): a row is changed only when its id is in
the requested set AND the authenticated user is its recipient; every other
row is silently left as it is (RLS filters rows, it does not raise). -/
def markOne (uid : Nat) (ids : List Nat) (m : Message) : Message :=
  if ids.contains m.id && m.recipient_id == uid then { m with is_read := true } else m

/-- Effect of the batch read-marking update on the whole table (store),
for authenticated user `uid` requesting the set `ids`. -/
def markRead (uid : Nat) (ids : List Nat) (store : List Message) : List Message :=
  store.map (markOne uid ids)

/-- Row filter of the thread query (useDirectMessages.ts line 121):
messages between the current user and the selected doctor, in either
direction. -/
def threadFilter (userId doctorId : Nat) (m : Message) : Bool :=
  (m.sender_id == userId && m.recipient_id == doctorId) ||
  (m.sender_id == doctorId && m.recipient_id == userId)

/-- Predicate of line 143: received by the current user and still unread. -/
def unreadForOwner (userId : Nat) (m : Message) : Bool :=
  m.recipient_id == userId && !m.is_read

/-- The id set `unreadIds` of useDirectMessages.ts line 143, computed from
the thread query result.  The ascending created_at order of that query does
not change which ids are collected, so the filter is taken over the store
directly. -/
def unreadIds (userId doctorId : Nat) (store : List Message) : List Nat :=
  ((store.filter (threadFilter userId doctorId)).filter (unreadForOwner userId)).map
    (fun m => m.id)

/-- Store effect of fetchMessages (useDirectMessages.ts lines 111-158),
i.e. of opening the conversation with `doctorId`: if there is no unread
received message in the thread nothing happens (line 144), otherwise the
batch update of lines 145-148 runs under the RLS update policy. -/
def fetchMessagesStore (userId doctorId : Nat) (store : List Message) : List Message :=
  if (unreadIds userId doctorId store).isEmpty then store
  else markRead userId (unreadIds userId doctorId store) store

/-- Embedding of the realtime INSERT handler (useDirectMessages.ts lines
218-251): given the session user, the currently selected conversation and
the inserted row, it returns the new visible thread (`messages` state) and
the new store.  Rows not involving the session user are ignored (line 222);
if the row belongs to the selected conversation it is appended to the
visible thread (line 238) and, when the session user is its recipient, the
single-row update of lines 242-245 runs (under the same RLS update policy,
hence `markRead` with the singleton id set).  The concluding refetch of the
conversation list (line 250) is the full rescan `fetchConversations`. -/
def handleInsert (userId : Nat) (selectedDoctorId : Option Nat) (newMsg : Message)
    (messages : List Message) (store : List Message) : List Message × List Message :=
  if !(newMsg.sender_id == userId || newMsg.recipient_id == userId) then (messages, store)
  else
    match selectedDoctorId with
    | none => (messages, store)
    | some d =>
      if newMsg.sender_id == d || newMsg.recipient_id == d then
        (messages ++ [newMsg],
         if newMsg.recipient_id == userId then markRead userId [newMsg.id] store else store)
      else (messages, store)

/-- Lookup of a message by id (first row with that id). -/
def getMsg (store : List Message) (i : Nat) : Option Message :=
  store.find? (fun m => m.id == i)

/-- C5: for every body string that is empty after trimming whitespace,
sendMessage fails (returns false, the embedding of the rejected send) and
does not create a message in the store. -/
theorem dm_C5_empty_body_rejected (userId recipientId newId newTime : Nat)
    (text : String) (store : List Message) (h : jsTrim text = "") :
    sendMessage userId recipientId text newId newTime store = (false, store) := by
  simp [sendMessage, h]

/-- Witness for C5 at a concrete whitespace-only body. -/
theorem dm_C5_empty_body_rejected_witness :
    jsTrim "   " = "" ∧ sendMessage 1 2 "   " 0 0 [] = (false, []) :=
  ⟨by decide, dm_C5_empty_body_rejected 1 2 0 0 "   " [] (by decide)⟩

/-- C6 counterexample: the code does not reject self-addressed messages.  A
send from user 1 to user 1 with the non-empty body "note" succeeds (returns
true) and creates the row, contradicting the claim that it fails with a
validation error and creates nothing. -/
theorem dm_C6_self_send_counterexample :
    sendMessage 1 1 "note" 7 3 [] =
      (true, [{ id := 7, sender_id := 1, recipient_id := 1, message := "note",
                is_read := false, created_at := 3 }]) := by
  decide

/-- C6 (amended): a self-addressed send whose body is non-empty after
trimming succeeds exactly like any other send: it returns true and appends
the message; no validation error occurs.  Only an empty-after-trim body is
rejected. -/
theorem dm_C6_self_send_amended (userId newId newTime : Nat) (text : String)
    (store : List Message) (h : jsTrim text ≠ "") :
    sendMessage userId userId text newId newTime store =
      (true, store ++ [{ id := newId, sender_id := userId, recipient_id := userId,
                         message := jsTrim text, is_read := false, created_at := newTime }]) := by
  simp [sendMessage, h]

/-- Witness for the amended C6 at a concrete input. -/
theorem dm_C6_self_send_amended_witness :
    jsTrim "note" ≠ "" ∧
      sendMessage 1 1 "note" 7 3 [] =
        (true, [{ id := 7, sender_id := 1, recipient_id := 1, message := "note",
                  is_read := false, created_at := 3 }]) :=
  ⟨by decide, dm_C6_self_send_amended 1 7 3 "note" [] (by decide)⟩

/-- The marking update never changes the id of a row. -/
theorem markOne_id (uid : Nat) (ids : List Nat) (m : Message) :
    (markOne uid ids m).id = m.id := by
  unfold markOne; split <;> rfl

/-- The marking update never changes the sender of a row. -/
theorem markOne_sender (uid : Nat) (ids : List Nat) (m : Message) :
    (markOne uid ids m).sender_id = m.sender_id := by
  unfold markOne; split <;> rfl

/-- The marking update never changes the recipient of a row. -/
theorem markOne_recipient (uid : Nat) (ids : List Nat) (m : Message) :
    (markOne uid ids m).recipient_id = m.recipient_id := by
  unfold markOne; split <;> rfl

/-- The marking update never changes the body of a row. -/
theorem markOne_message (uid : Nat) (ids : List Nat) (m : Message) :
    (markOne uid ids m).message = m.message := by
  unfold markOne; split <;> rfl

/-- The marking update never changes the timestamp of a row. -/
theorem markOne_created_at (uid : Nat) (ids : List Nat) (m : Message) :
    (markOne uid ids m).created_at = m.created_at := by
  unfold markOne; split <;> rfl

/-- Marking a single row twice is the same as marking it once. -/
theorem markOne_idem (uid : Nat) (ids : List Nat) (m : Message) :
    markOne uid ids (markOne uid ids m) = markOne uid ids m := by
  by_cases h1 : m.id ∈ ids
  · by_cases h2 : m.recipient_id = uid
    · simp [markOne, h1, h2]
    · simp [markOne, h2]
  · simp [markOne, h1]

/-- A row that is already read is left untouched by the marking update. -/
theorem markOne_read_noop (uid : Nat) (ids : List Nat) (m : Message)
    (h : m.is_read = true) : markOne uid ids m = m := by
  unfold markOne
  split
  · cases m; simp_all
  · rfl

/-- A row whose recipient is not the requesting user is left untouched by
the marking update (silently filtered by the RLS update policy). -/
theorem markOne_wrong_recipient_noop (uid : Nat) (ids : List Nat) (m : Message)
    (h : m.recipient_id ≠ uid) : markOne uid ids m = m := by
  unfold markOne
  split
  · next hc =>
      exact absurd (by simpa using (Bool.and_eq_true _ _ |>.mp hc).2) h
  · rfl

/-- C7 counterexample: user 3 requests read-marking of message 0, which was
sent by user 1 to user 2.  The operation completes normally (it is a total
update, no authorization error is raised) and simply leaves the store
unchanged, the row still unread: the RLS policy silently filters the row
out instead of rejecting the request. -/
theorem dm_C7_markread_counterexample :
    markRead 3 [0]
        [{ id := 0, sender_id := 1, recipient_id := 2, message := "hi",
           is_read := false, created_at := 0 }] =
      [{ id := 0, sender_id := 1, recipient_id := 2, message := "hi",
         is_read := false, created_at := 0 }] ∧
    (getMsg (markRead 3 [0]
        [{ id := 0, sender_id := 1, recipient_id := 2, message := "hi",
           is_read := false, created_at := 0 }]) 0).map Message.is_read = some false := by
  decide

/-- C7 (amended): markRead is idempotent, ids already read are no-ops, and
an id whose message does not have the requesting user as recipient is
silently left unchanged by the row-level-security filter; no authorization
error is raised. -/
theorem dm_C7_markread_amended (uid : Nat) (ids : List Nat) (store : List Message)
    (m : Message) :
    markRead uid ids (markRead uid ids store) = markRead uid ids store ∧
    (m.is_read = true → markOne uid ids m = m) ∧
    (m.recipient_id ≠ uid → markOne uid ids m = m) := by
  refine ⟨?_, markOne_read_noop uid ids m, markOne_wrong_recipient_noop uid ids m⟩
  unfold markRead
  rw [List.map_map]
  exact List.map_congr_left (fun a _ => markOne_idem uid ids a)

/-- Witness for the amended C7 at concrete inputs. -/
theorem dm_C7_markread_amended_witness :
    markRead 2 [0] (markRead 2 [0]
        [{ id := 0, sender_id := 1, recipient_id := 2, message := "hi",
           is_read := false, created_at := 0 }]) =
      markRead 2 [0]
        [{ id := 0, sender_id := 1, recipient_id := 2, message := "hi",
           is_read := false, created_at := 0 }] ∧
    markOne 2 [0] { id := 0, sender_id := 1, recipient_id := 3, message := "hi",
                    is_read := false, created_at := 0 } =
      { id := 0, sender_id := 1, recipient_id := 3, message := "hi",
        is_read := false, created_at := 0 } :=
  ⟨(dm_C7_markread_amended 2 [0]
      [{ id := 0, sender_id := 1, recipient_id := 2, message := "hi",
         is_read := false, created_at := 0 }]
      { id := 0, sender_id := 1, recipient_id := 3, message := "hi",
        is_read := false, created_at := 0 }).1,
   (dm_C7_markread_amended 2 [0]
      [{ id := 0, sender_id := 1, recipient_id := 2, message := "hi",
         is_read := false, created_at := 0 }]
      { id := 0, sender_id := 1, recipient_id := 3, message := "hi",
        is_read := false, created_at := 0 }).2.2 (by decide)⟩

/-- All store-mutating operations of the subsystem: a send (insert), opening
a thread (fetchMessages and its batch read-marking), a realtime insert-event
handler run (with its possible single-row read-marking), and a raw batch
read-marking update as the database executes it under RLS.  No operation of
the system deletes rows or writes any field other than is_read. -/
inductive SysOp where
  | send (senderId recipientId : Nat) (text : String) (newId newTime : Nat)
  | openThread (userId doctorId : Nat)
  | insertEvent (userId : Nat) (selectedDoctorId : Option Nat) (newMsg : Message)
  | batchMarkRead (userId : Nat) (ids : List Nat)

/-- Effect of one system operation on the durable store. -/
def applySys (op : SysOp) (store : List Message) : List Message :=
  match op with
  | SysOp.send a b t nid nt => (sendMessage a b t nid nt store).2
  | SysOp.openThread u d => fetchMessagesStore u d store
  | SysOp.insertEvent u sel m => (handleInsert u sel m [] store).2
  | SysOp.batchMarkRead u ids => markRead u ids store

/-- Lookup by id commutes with an id-preserving row transformation. -/
theorem getMsg_map (g : Message → Message) (hid : ∀ m, (g m).id = m.id)
    (store : List Message) (i : Nat) :
    getMsg (store.map g) i = (getMsg store i).map g := by
  induction store with
  | nil => rfl
  | cons a l ih =>
    by_cases h : a.id = i
    · simp [getMsg, List.find?_cons, hid, h]
    · simpa [getMsg, List.find?_cons, hid, h] using ih

/-- Lookup by id survives appending rows on the right. -/
theorem getMsg_append_left (store tail : List Message) (i : Nat) (m : Message)
    (h : getMsg store i = some m) : getMsg (store ++ tail) i = some m := by
  unfold getMsg at h ⊢
  rw [List.find?_append, h]
  rfl

/-- A read row stays read through one batch read-marking update. -/
theorem getMsg_markRead_monotone (uid : Nat) (ids : List Nat) (store : List Message)
    (i : Nat) (m : Message) (hfind : getMsg store i = some m) (hread : m.is_read = true) :
    ∃ m2, getMsg (markRead uid ids store) i = some m2 ∧ m2.is_read = true := by
  refine ⟨markOne uid ids m, ?_, ?_⟩
  · rw [markRead, getMsg_map (markOne uid ids) (markOne_id uid ids) store i, hfind]
    rfl
  · rw [markOne_read_noop uid ids m hread]
    exact hread

/-- The store component of the insert-event handler is either untouched or
the single-row read-marking of the inserted id. -/
theorem handleInsert_store_cases (u : Nat) (sel : Option Nat) (nm : Message)
    (msgs store : List Message) :
    (handleInsert u sel nm msgs store).2 = store ∨
    (handleInsert u sel nm msgs store).2 = markRead u [nm.id] store := by
  unfold handleInsert
  split
  · left; rfl
  · split
    · left; rfl
    · split
      · split
        · right; rfl
        · left; rfl
      · left; rfl

/-- C8: is_read is monotonic.  For every message in the store and every
operation of the system, once is_read is true it stays true: no operation
ever sets it back to false. -/
theorem dm_C8_isRead_monotonic (op : SysOp) (store : List Message) (i : Nat)
    (m : Message) (hfind : getMsg store i = some m) (hread : m.is_read = true) :
    ∃ m2, getMsg (applySys op store) i = some m2 ∧ m2.is_read = true := by
  cases op with
  | send a b t nid nt =>
    by_cases h : (jsTrim t == "") = true
    · refine ⟨m, ?_, hread⟩
      simp only [applySys, sendMessage, if_pos h]
      exact hfind
    · refine ⟨m, ?_, hread⟩
      simp only [applySys, sendMessage, if_neg h]
      exact getMsg_append_left store _ i m hfind
  | openThread u d =>
    by_cases h : (unreadIds u d store).isEmpty = true
    · refine ⟨m, ?_, hread⟩
      simp only [applySys, fetchMessagesStore, if_pos h]
      exact hfind
    · simp only [applySys, fetchMessagesStore, if_neg h]
      exact getMsg_markRead_monotone u _ store i m hfind hread
  | insertEvent u sel nm =>
    have ha : applySys (SysOp.insertEvent u sel nm) store =
        (handleInsert u sel nm [] store).2 := rfl
    rcases handleInsert_store_cases u sel nm [] store with h | h
    · rw [ha, h]; exact ⟨m, hfind, hread⟩
    · rw [ha, h]; exact getMsg_markRead_monotone u _ store i m hfind hread
  | batchMarkRead u ids =>
    exact getMsg_markRead_monotone u ids store i m hfind hread

/-- Witness for C8: a read message keeps is_read true through a batch
read-marking that targets it again. -/
theorem dm_C8_isRead_monotonic_witness :
    getMsg [{ id := 5, sender_id := 1, recipient_id := 2, message := "x",
              is_read := true, created_at := 0 }] 5 =
      some { id := 5, sender_id := 1, recipient_id := 2, message := "x",
             is_read := true, created_at := 0 } ∧
    ∃ m2, getMsg (applySys (SysOp.batchMarkRead 2 [5])
        [{ id := 5, sender_id := 1, recipient_id := 2, message := "x",
           is_read := true, created_at := 0 }]) 5 = some m2 ∧ m2.is_read = true :=
  ⟨by decide,
   dm_C8_isRead_monotonic (SysOp.batchMarkRead 2 [5])
     [{ id := 5, sender_id := 1, recipient_id := 2, message := "x",
        is_read := true, created_at := 0 }] 5
     { id := 5, sender_id := 1, recipient_id := 2, message := "x",
       is_read := true, created_at := 0 } (by decide) (by decide)⟩

/-- The observation the specification calls unreadCount(U, C): how many
messages of the store were sent by the counterpart to the owner and are
still unread. -/
def countUnreadFrom (ownerId counterpartId : Nat) (store : List Message) : Nat :=
  store.countP (fun m => m.sender_id == counterpartId && m.recipient_id == ownerId && !m.is_read)

/-- The marking update preserves the thread filter (it only writes is_read). -/
theorem threadFilter_markOne (u c uid : Nat) (ids : List Nat) (m : Message) :
    threadFilter u c (markOne uid ids m) = threadFilter u c m := by
  unfold threadFilter
  rw [markOne_sender, markOne_recipient]

/-- The marking update can only clear the unread observation, never set it. -/
theorem unreadForOwner_markOne_mono (w uid : Nat) (ids : List Nat) (m : Message)
    (h : unreadForOwner w (markOne uid ids m) = true) : unreadForOwner w m = true := by
  revert h
  unfold markOne
  split
  · intro h
    simp [unreadForOwner] at h
  · exact id

/-- An unread received message of the thread contributes its id to the
batch collected when the thread is opened. -/
theorem mem_unreadIds (u c : Nat) (store : List Message) (m : Message) (hm : m ∈ store)
    (ht : threadFilter u c m = true) (hu : unreadForOwner u m = true) :
    (unreadIds u c store).contains m.id = true := by
  have h1 : m ∈ (store.filter (threadFilter u c)).filter (unreadForOwner u) :=
    List.mem_filter.mpr ⟨List.mem_filter.mpr ⟨hm, ht⟩, hu⟩
  exact List.elem_iff.mpr (List.mem_map.mpr ⟨m, h1, rfl⟩)

/-- After the batch collected from a thread is applied, no message of that
thread is still an unread received message. -/
theorem markOne_clears_thread (u c : Nat) (store : List Message) (m : Message)
    (hm : m ∈ store) (ht : threadFilter u c m = true) :
    unreadForOwner u (markOne u (unreadIds u c store) m) = false := by
  by_cases hu : unreadForOwner u m = true
  · have hc := mem_unreadIds u c store m hm ht hu
    have hr : (m.recipient_id == u) = true := (Bool.and_eq_true _ _ |>.mp hu).1
    unfold markOne
    rw [if_pos (by rw [hc, hr]; rfl)]
    simp [unreadForOwner]
  · cases h2 : unreadForOwner u (markOne u (unreadIds u c store) m)
    · rfl
    · exact absurd (unreadForOwner_markOne_mono u u _ m h2) hu

/-- A message counted by unreadCount(U, C) passes the thread filter and the
unread filter of the open-conversation batch. -/
theorem unread_pred_decomp (u c : Nat) (m : Message)
    (h : (m.sender_id == c && m.recipient_id == u && !m.is_read) = true) :
    threadFilter u c m = true ∧ unreadForOwner u m = true := by
  simp only [Bool.and_eq_true] at h
  obtain ⟨⟨hs, hr⟩, hn⟩ := h
  constructor
  · simp only [threadFilter, hs, hr, Bool.and_true, Bool.and_self, Bool.or_true]
  · simp only [unreadForOwner, hr, hn, Bool.and_self]

/-- With an empty collected batch, every thread message is already read. -/
theorem unreadIds_nil_forall (u c : Nat) (store : List Message)
    (h : unreadIds u c store = []) :
    ∀ m ∈ store, threadFilter u c m = true → unreadForOwner u m = false := by
  intro m hm ht
  have h1 : (store.filter (threadFilter u c)).filter (unreadForOwner u) = [] :=
    List.map_eq_nil_iff.mp h
  have h2 := List.filter_eq_nil_iff.mp h1 m (List.mem_filter.mpr ⟨hm, ht⟩)
  simpa using h2

/-- Opening the conversation leaves unreadCount(U, C) at zero. -/
theorem countUnread_after_open (u c : Nat) (store : List Message) :
    countUnreadFrom u c (fetchMessagesStore u c store) = 0 := by
  unfold fetchMessagesStore
  split
  · next hemp =>
    apply List.countP_eq_zero.mpr
    intro m hm hp
    obtain ⟨ht, hu⟩ := unread_pred_decomp u c m hp
    have := unreadIds_nil_forall u c store (List.isEmpty_iff.mp hemp) m hm ht
    rw [hu] at this
    cases this
  · apply List.countP_eq_zero.mpr
    intro m2 hm2 hp
    obtain ⟨m, hm, rfl⟩ := List.mem_map.mp hm2
    obtain ⟨ht2, hu2⟩ := unread_pred_decomp u c _ hp
    have ht : threadFilter u c m = true := by
      rw [← threadFilter_markOne u c u (unreadIds u c store) m]
      exact ht2
    have hk := markOne_clears_thread u c store m hm ht
    rw [hu2] at hk
    cases hk

/-- With an empty collected batch, opening the conversation is a no-op on
the store. -/
theorem fetchMessagesStore_noop (u c : Nat) (store : List Message)
    (h : unreadIds u c store = []) : fetchMessagesStore u c store = store := by
  unfold fetchMessagesStore
  rw [h]
  rfl

/-- After opening a conversation once, the collected batch of a second open
is empty. -/
theorem unreadIds_after_open (u c : Nat) (store : List Message) :
    unreadIds u c (fetchMessagesStore u c store) = [] := by
  unfold fetchMessagesStore
  split
  · next hemp => exact List.isEmpty_iff.mp hemp
  · unfold unreadIds
    rw [List.map_eq_nil_iff, List.filter_eq_nil_iff]
    intro m2 hm2
    obtain ⟨hm2mem, ht2⟩ := List.mem_filter.mp hm2
    obtain ⟨m, hm, rfl⟩ := List.mem_map.mp hm2mem
    have ht : threadFilter u c m = true := by
      rw [← threadFilter_markOne u c u (unreadIds u c store) m]
      exact ht2
    have hk := markOne_clears_thread u c store m hm ht
    simpa [unreadIds] using hk

/-- C9: opening the conversation between owner U and counterpart C drives
unreadCount(U, C) to 0; it is a no-op on the store when the set of unread
received messages of the thread is empty; and it is idempotent: re-opening
with no new messages in between changes nothing (so the count stays 0). -/
theorem dm_C9_open_conversation (u c : Nat) (store : List Message) :
    countUnreadFrom u c (fetchMessagesStore u c store) = 0 ∧
    (unreadIds u c store = [] → fetchMessagesStore u c store = store) ∧
    fetchMessagesStore u c (fetchMessagesStore u c store) = fetchMessagesStore u c store :=
  ⟨countUnread_after_open u c store, fetchMessagesStore_noop u c store,
   fetchMessagesStore_noop u c (fetchMessagesStore u c store) (unreadIds_after_open u c store)⟩

/-- Witness for C9 at a concrete store with one unread received message. -/
theorem dm_C9_open_conversation_witness :
    countUnreadFrom 1 2 (fetchMessagesStore 1 2
        [{ id := 0, sender_id := 2, recipient_id := 1, message := "hi",
           is_read := false, created_at := 4 }]) = 0 ∧
    (unreadIds 1 2 [{ id := 0, sender_id := 2, recipient_id := 1, message := "hi",
                      is_read := false, created_at := 4 }] = [] →
      fetchMessagesStore 1 2 [{ id := 0, sender_id := 2, recipient_id := 1, message := "hi",
                                is_read := false, created_at := 4 }] =
        [{ id := 0, sender_id := 2, recipient_id := 1, message := "hi",
           is_read := false, created_at := 4 }]) ∧
    fetchMessagesStore 1 2 (fetchMessagesStore 1 2
        [{ id := 0, sender_id := 2, recipient_id := 1, message := "hi",
           is_read := false, created_at := 4 }]) =
      fetchMessagesStore 1 2
        [{ id := 0, sender_id := 2, recipient_id := 1, message := "hi",
           is_read := false, created_at := 4 }] :=
  dm_C9_open_conversation 1 2
    [{ id := 0, sender_id := 2, recipient_id := 1, message := "hi",
       is_read := false, created_at := 4 }]

/-- A map that fixes every element of a list is the identity on it. -/
theorem list_map_eq_self {α : Type} (f : α → α) (l : List α) (h : ∀ a ∈ l, f a = a) :
    l.map f = l := by
  induction l with
  | nil => rfl
  | cons a t ih =>
    rw [List.map_cons, h a (by simp), ih (fun x hx => h x (by simp [hx]))]

/-- A row whose id is not in the requested set is untouched by the marking
update. -/
theorem markOne_not_in (uid : Nat) (ids : List Nat) (m : Message) (h : ¬ m.id ∈ ids) :
    markOne uid ids m = m := by
  unfold markOne
  rw [if_neg]
  intro hc
  exact h (List.elem_iff.mp (Bool.and_eq_true _ _ |>.mp hc).1)

/-- C10: when an insert event arrives for a message whose counterpart is the
currently selected conversation and whose recipient is the session user, the
handler appends the message to the visible thread and immediately marks it
read in the store, so the arriving message contributes nothing to that
conversation's unread count: unreadCount over the resulting store equals
unreadCount over the store as it was before the insert. -/
theorem dm_C10_insert_while_open (u d : Nat) (newMsg : Message) (msgs store : List Message)
    (hs : newMsg.sender_id = d) (hr : newMsg.recipient_id = u)
    (hfresh : ∀ m ∈ store, m.id ≠ newMsg.id) :
    handleInsert u (some d) newMsg msgs (store ++ [newMsg]) =
      (msgs ++ [newMsg], store ++ [{ newMsg with is_read := true }]) ∧
    countUnreadFrom u d (store ++ [{ newMsg with is_read := true }]) =
      countUnreadFrom u d store := by
  constructor
  · have hmap : store.map (markOne u [newMsg.id]) = store :=
      list_map_eq_self _ store
        (fun m hm => markOne_not_in u [newMsg.id] m (by simp [hfresh m hm]))
    have hone : markOne u [newMsg.id] newMsg = { newMsg with is_read := true } := by
      unfold markOne
      rw [if_pos (show (List.contains [newMsg.id] newMsg.id && newMsg.recipient_id == u) = true
        by simp [hr])]
    simp [handleInsert, markRead, hr, hs, List.map_append, hmap, hone]
  · rw [countUnreadFrom, countUnreadFrom, List.countP_append]
    simp

/-- Witness for C10 at a concrete store and inserted message. -/
theorem dm_C10_insert_while_open_witness :
    handleInsert 1 (some 2)
        { id := 5, sender_id := 2, recipient_id := 1, message := "hey",
          is_read := false, created_at := 9 } []
        ([{ id := 0, sender_id := 2, recipient_id := 1, message := "old",
            is_read := false, created_at := 1 }] ++
          [{ id := 5, sender_id := 2, recipient_id := 1, message := "hey",
             is_read := false, created_at := 9 }]) =
      ([{ id := 5, sender_id := 2, recipient_id := 1, message := "hey",
          is_read := false, created_at := 9 }],
       [{ id := 0, sender_id := 2, recipient_id := 1, message := "old",
          is_read := false, created_at := 1 }] ++
         [{ id := 5, sender_id := 2, recipient_id := 1, message := "hey",
            is_read := true, created_at := 9 }]) ∧
    countUnreadFrom 1 2
        ([{ id := 0, sender_id := 2, recipient_id := 1, message := "old",
            is_read := false, created_at := 1 }] ++
          [{ id := 5, sender_id := 2, recipient_id := 1, message := "hey",
             is_read := true, created_at := 9 }]) =
      countUnreadFrom 1 2
        [{ id := 0, sender_id := 2, recipient_id := 1, message := "old",
           is_read := false, created_at := 1 }] :=
  dm_C10_insert_while_open 1 2
    { id := 5, sender_id := 2, recipient_id := 1, message := "hey",
      is_read := false, created_at := 9 } []
    [{ id := 0, sender_id := 2, recipient_id := 1, message := "old",
       is_read := false, created_at := 1 }]
    (by decide) (by decide) (by decide)

/-- How many messages of the list have counterpart `k` and count as unread
received messages of `owner`.  This is the quantity the fold accumulates in
the unread_count field. -/
def cnt (owner k : Nat) (L : List Message) : Nat :=
  L.countP (fun m => otherDoctor owner m == k && unreadForOwner owner m)

/-- Increase the unread counter of a conversation. -/
def bump (n : Nat) (c : Conversation) : Conversation :=
  { c with unread_count := c.unread_count + n }

/-- Closed form of the tail of the conversation fold: the conversations
created for counterparts outside the key set `K`, in order of first
occurrence, each carrying the body and timestamp of its first message and
the full unread tally of its counterpart. -/
def newOnes (owner : Nat) (K : List Nat) : List Message → List Conversation
  | [] => []
  | m :: L =>
    if K.contains (otherDoctor owner m) then newOnes owner K L
    else { doctor_id := otherDoctor owner m, last_message := m.message,
           last_message_time := m.created_at,
           unread_count := cnt owner (otherDoctor owner m) (m :: L) } ::
      newOnes owner (otherDoctor owner m :: K) L

/-- Membership-equivalent key lists agree on contains. -/
theorem contains_eq_of_mem_iff {K1 K2 : List Nat} (h : ∀ x, x ∈ K1 ↔ x ∈ K2) (a : Nat) :
    K1.contains a = K2.contains a := by
  by_cases hx : a ∈ K1
  · rw [show K1.contains a = true from List.elem_iff.mpr hx,
        show K2.contains a = true from List.elem_iff.mpr ((h a).mp hx)]
  · have hx2 : ¬ a ∈ K2 := fun hm => hx ((h a).mpr hm)
    cases h1 : K1.contains a
    · cases h2 : K2.contains a
      · rfl
      · exact absurd (List.elem_iff.mp h2) hx2
    · exact absurd (List.elem_iff.mp h1) hx

/-- The tail construction only consults the key set through membership. -/
theorem newOnes_congr (owner : Nat) (L : List Message) : ∀ (K1 K2 : List Nat),
    (∀ x, x ∈ K1 ↔ x ∈ K2) → newOnes owner K1 L = newOnes owner K2 L := by
  induction L with
  | nil => intro K1 K2 _; rfl
  | cons m L ih =>
    intro K1 K2 h
    simp only [newOnes]
    rw [contains_eq_of_mem_iff h]
    by_cases hx : (K2.contains (otherDoctor owner m)) = true
    · rw [if_pos hx, if_pos hx]
      exact ih K1 K2 h
    · rw [if_neg hx, if_neg hx]
      exact congrArg _ (ih _ _ (fun x => by simp [h x]))

/-- A message of a different counterpart does not change the tally. -/
theorem cnt_cons_ne (owner k : Nat) (m : Message) (L : List Message)
    (h : otherDoctor owner m ≠ k) : cnt owner k (m :: L) = cnt owner k L := by
  unfold cnt
  rw [List.countP_cons]
  simp [h]

/-- A message of the same counterpart adds its own unread contribution. -/
theorem cnt_cons_self (owner : Nat) (m : Message) (L : List Message) :
    cnt owner (otherDoctor owner m) (m :: L) =
      cnt owner (otherDoctor owner m) L +
        (if unreadForOwner owner m = true then 1 else 0) := by
  unfold cnt
  rw [List.countP_cons]
  congr 1
  simp

/-- The duplicate check of the fold tests exactly key membership. -/
theorem any_key_iff (acc : List Conversation) (k : Nat) :
    (acc.any (fun c => c.doctor_id == k)) = true ↔ k ∈ acc.map Conversation.doctor_id := by
  rw [List.any_eq_true]
  constructor
  · rintro ⟨c, hc, hb⟩
    exact List.mem_map.mpr ⟨c, hc, beq_iff_eq.mp hb⟩
  · intro h
    obtain ⟨c, hc, he⟩ := List.mem_map.mp h
    exact ⟨c, hc, beq_iff_eq.mpr he⟩

/-- Bumping preserves the counterpart key. -/
theorem bump_key (n : Nat) (c : Conversation) : (bump n c).doctor_id = c.doctor_id := rfl

/-- Bumping twice accumulates. -/
theorem bump_bump (a b : Nat) (c : Conversation) : bump a (bump b c) = bump (b + a) c := by
  simp [bump, Nat.add_assoc]

/-- Bumping by zero is the identity. -/
theorem bump_zero (c : Conversation) : bump 0 c = c := by
  cases c; simp [bump]

/-- Fold step on a counterpart already present, message read: no change. -/
theorem addMsg_known_read (owner : Nat) (acc : List Conversation) (m : Message)
    (hk : otherDoctor owner m ∈ acc.map Conversation.doctor_id)
    (hu : unreadForOwner owner m = false) :
    addMsg owner acc m = acc := by
  have hu2 : ¬ ((m.recipient_id == owner && !m.is_read) = true) := by
    rw [show (m.recipient_id == owner && !m.is_read) = unreadForOwner owner m from rfl, hu]
    simp
  simp only [addMsg]
  rw [if_pos ((any_key_iff acc (otherDoctor owner m)).mpr hk), if_neg hu2]

/-- Fold step on a counterpart already present, message unread: the entry
with that key is bumped by one. -/
theorem addMsg_known_unread (owner : Nat) (acc : List Conversation) (m : Message)
    (hk : otherDoctor owner m ∈ acc.map Conversation.doctor_id)
    (hu : unreadForOwner owner m = true) :
    addMsg owner acc m =
      acc.map (fun c => if c.doctor_id == otherDoctor owner m then bump 1 c else c) := by
  have hu2 : ((m.recipient_id == owner && !m.is_read) = true) := by
    rw [show (m.recipient_id == owner && !m.is_read) = unreadForOwner owner m from rfl, hu]
  simp only [addMsg]
  rw [if_pos ((any_key_iff acc (otherDoctor owner m)).mpr hk), if_pos hu2]
  rfl

/-- Fold step on a new counterpart, message read: a fresh entry with zero
unread is appended. -/
theorem addMsg_new_read (owner : Nat) (acc : List Conversation) (m : Message)
    (hk : ¬ otherDoctor owner m ∈ acc.map Conversation.doctor_id)
    (hu : unreadForOwner owner m = false) :
    addMsg owner acc m =
      acc ++ [{ doctor_id := otherDoctor owner m, last_message := m.message,
                last_message_time := m.created_at, unread_count := 0 }] := by
  have hu2 : ¬ ((m.recipient_id == owner && !m.is_read) = true) := by
    rw [show (m.recipient_id == owner && !m.is_read) = unreadForOwner owner m from rfl, hu]
    simp
  have hany : ¬ (acc.any (fun c => c.doctor_id == otherDoctor owner m) = true) :=
    fun hcc => hk ((any_key_iff acc (otherDoctor owner m)).mp hcc)
  simp only [addMsg]
  rw [if_neg hu2, if_neg hany]

/-- Fold step on a new counterpart, message unread: a fresh entry with one
unread is appended (created with zero, then bumped by the same message). -/
theorem addMsg_new_unread (owner : Nat) (acc : List Conversation) (m : Message)
    (hk : ¬ otherDoctor owner m ∈ acc.map Conversation.doctor_id)
    (hu : unreadForOwner owner m = true) :
    addMsg owner acc m =
      acc ++ [{ doctor_id := otherDoctor owner m, last_message := m.message,
                last_message_time := m.created_at, unread_count := 1 }] := by
  have hu2 : ((m.recipient_id == owner && !m.is_read) = true) := by
    rw [show (m.recipient_id == owner && !m.is_read) = unreadForOwner owner m from rfl, hu]
  have hany : ¬ (acc.any (fun c => c.doctor_id == otherDoctor owner m) = true) :=
    fun hcc => hk ((any_key_iff acc (otherDoctor owner m)).mp hcc)
  simp only [addMsg]
  rw [if_pos hu2, if_neg hany, List.map_append]
  congr 1
  · refine list_map_eq_self _ acc (fun c hc => ?_)
    have hne : ¬ ((c.doctor_id == otherDoctor owner m) = true) := fun hb =>
      hk (List.mem_map.mpr ⟨c, hc, beq_iff_eq.mp hb⟩)
    rw [if_neg hne]
  · simp

/-- Bumping under the key-guarded map preserves the key sequence. -/
theorem keys_bumpIf (acc : List Conversation) (k n : Nat) :
    (acc.map (fun c => if c.doctor_id == k then bump n c else c)).map Conversation.doctor_id
      = acc.map Conversation.doctor_id := by
  rw [List.map_map]
  refine List.map_congr_left (fun c _ => ?_)
  by_cases h : c.doctor_id = k
  · simp [h, bump]
  · simp [h]

/-- A message whose counterpart is already in the key set adds nothing new. -/
theorem newOnes_cons_mem (owner : Nat) (K : List Nat) (m : Message) (L : List Message)
    (h : K.contains (otherDoctor owner m) = true) :
    newOnes owner K (m :: L) = newOnes owner K L := by
  simp only [newOnes]
  rw [if_pos h]

/-- A message with a fresh counterpart creates the head conversation. -/
theorem newOnes_cons_new (owner : Nat) (K : List Nat) (m : Message) (L : List Message)
    (h : ¬ K.contains (otherDoctor owner m) = true) :
    newOnes owner K (m :: L) =
      { doctor_id := otherDoctor owner m, last_message := m.message,
        last_message_time := m.created_at,
        unread_count := cnt owner (otherDoctor owner m) (m :: L) } ::
        newOnes owner (otherDoctor owner m :: K) L := by
  simp only [newOnes]
  rw [if_neg h]

/-- Appending an entry with a fresh key keeps the key sequence distinct. -/
theorem keys_snoc_nodup (acc : List Conversation) (c : Conversation)
    (hnd : (acc.map Conversation.doctor_id).Nodup)
    (hk : ¬ c.doctor_id ∈ acc.map Conversation.doctor_id) :
    ((acc ++ [c]).map Conversation.doctor_id).Nodup := by
  rw [List.map_append, List.nodup_append]
  refine ⟨hnd, List.nodup_singleton _, ?_⟩
  intro a ha hb
  simp only [List.map_cons, List.map_nil, List.mem_singleton] at hb
  rw [hb] at ha
  exact hk ha

/-- Closed form of the conversation fold under an arbitrary accumulator with
distinct keys: every accumulated entry is bumped by the unread tally of its
counterpart over the remaining messages, and fresh counterparts are appended
in first-occurrence order via `newOnes`. -/
theorem foldl_addMsg_eq (owner : Nat) (L : List Message) : ∀ (acc : List Conversation),
    (acc.map Conversation.doctor_id).Nodup →
    L.foldl (addMsg owner) acc =
      acc.map (fun c => bump (cnt owner c.doctor_id L) c) ++
        newOnes owner (acc.map Conversation.doctor_id) L := by
  induction L with
  | nil =>
    intro acc _
    simp only [List.foldl_nil, newOnes, List.append_nil]
    refine (list_map_eq_self _ acc (fun c _ => ?_)).symm
    rw [show cnt owner c.doctor_id [] = 0 from rfl, bump_zero]
  | cons m L ih =>
    intro acc hnd
    rw [List.foldl_cons]
    by_cases hk : otherDoctor owner m ∈ acc.map Conversation.doctor_id
    · have hcont : (acc.map Conversation.doctor_id).contains (otherDoctor owner m) = true :=
        List.elem_iff.mpr hk
      by_cases hu : unreadForOwner owner m = true
      · rw [addMsg_known_unread owner acc m hk hu]
        rw [ih _ (by rw [keys_bumpIf]; exact hnd)]
        rw [keys_bumpIf, newOnes_cons_mem owner _ m L hcont]
        congr 1
        rw [List.map_map]
        refine List.map_congr_left (fun c hc => ?_)
        simp only [Function.comp_apply]
        by_cases hck : c.doctor_id = otherDoctor owner m
        · have h1 : (c.doctor_id == otherDoctor owner m) = true := beq_iff_eq.mpr hck
          rw [if_pos h1, bump_key, bump_bump, hck, cnt_cons_self owner m L, hu]
          simp [Nat.add_comm]
        · have h1 : ¬ ((c.doctor_id == otherDoctor owner m) = true) := fun hb =>
            hck (beq_iff_eq.mp hb)
          rw [if_neg h1, cnt_cons_ne owner c.doctor_id m L (fun he => hck he.symm)]
      · have hu2 : unreadForOwner owner m = false := by
          cases h2 : unreadForOwner owner m
          · rfl
          · exact absurd h2 hu
        rw [addMsg_known_read owner acc m hk hu2, ih acc hnd,
            newOnes_cons_mem owner _ m L hcont]
        congr 1
        refine List.map_congr_left (fun c hc => ?_)
        by_cases hck : c.doctor_id = otherDoctor owner m
        · rw [hck, cnt_cons_self owner m L, hu2]
          simp
        · rw [cnt_cons_ne owner c.doctor_id m L (fun he => hck he.symm)]
    · have hcont : ¬ (acc.map Conversation.doctor_id).contains (otherDoctor owner m) = true :=
        fun hc => hk (List.elem_iff.mp hc)
      by_cases hu : unreadForOwner owner m = true
      · rw [addMsg_new_unread owner acc m hk hu]
        rw [ih _ (keys_snoc_nodup acc _ hnd hk), List.map_append, List.map_append,
            newOnes_congr owner L _ (otherDoctor owner m :: acc.map Conversation.doctor_id)
              (fun x => by simp [or_comm]),
            newOnes_cons_new owner _ m L hcont,
            List.append_assoc]
        simp only [List.map_cons, List.map_nil, List.singleton_append]
        congr 1
        · refine List.map_congr_left (fun c hc => ?_)
          rw [cnt_cons_ne owner c.doctor_id m L
            (fun he => hk (he ▸ List.mem_map.mpr ⟨c, hc, rfl⟩))]
        · congr 1
          simp [bump, cnt_cons_self owner m L, hu, Nat.add_comm]
      · have hu2 : unreadForOwner owner m = false := by
          cases h2 : unreadForOwner owner m
          · rfl
          · exact absurd h2 hu
        rw [addMsg_new_read owner acc m hk hu2]
        rw [ih _ (keys_snoc_nodup acc _ hnd hk), List.map_append, List.map_append,
            newOnes_congr owner L _ (otherDoctor owner m :: acc.map Conversation.doctor_id)
              (fun x => by simp [or_comm]),
            newOnes_cons_new owner _ m L hcont,
            List.append_assoc]
        simp only [List.map_cons, List.map_nil, List.singleton_append]
        congr 1
        · refine List.map_congr_left (fun c hc => ?_)
          rw [cnt_cons_ne owner c.doctor_id m L
            (fun he => hk (he ▸ List.mem_map.mpr ⟨c, hc, rfl⟩))]
        · congr 1
          simp [bump, cnt_cons_self owner m L, hu2]

/-- The conversation list of fetchConversations is exactly the closed-form
construction over an empty key set. -/
theorem fetchConversations_eq_newOnes (owner : Nat) (L : List Message) :
    fetchConversations owner L = newOnes owner [] L := by
  have h := foldl_addMsg_eq owner L [] (by simp)
  simpa [fetchConversations] using h

/-- Pointwise equal boolean predicates count equally. -/
theorem countP_congr_bool {α : Type} (p q : α → Bool) (l : List α)
    (h : ∀ a ∈ l, p a = q a) : l.countP p = l.countP q := by
  induction l with
  | nil => rfl
  | cons a t ih =>
    rw [List.countP_cons, List.countP_cons, h a (by simp),
        ih (fun x hx => h x (by simp [hx]))]

/-- Every constructed conversation has a key outside the key set. -/
theorem newOnes_key_not_mem (owner : Nat) (L : List Message) : ∀ (K : List Nat)
    (c : Conversation), c ∈ newOnes owner K L → ¬ c.doctor_id ∈ K := by
  induction L with
  | nil => intro K c hc; simp [newOnes] at hc
  | cons m L ih =>
    intro K c hc
    by_cases hcon : K.contains (otherDoctor owner m) = true
    · rw [newOnes_cons_mem owner K m L hcon] at hc
      exact ih K c hc
    · rw [newOnes_cons_new owner K m L hcon] at hc
      rcases List.mem_cons.mp hc with h | h
      · intro hmem
        rw [h] at hmem
        exact hcon (List.elem_iff.mpr (by simpa using hmem))
      · intro hmem
        exact ih _ c h (List.mem_cons.mpr (Or.inr hmem))

/-- Every constructed conversation carries the full unread tally of its
counterpart over the whole message list. -/
theorem newOnes_unread (owner : Nat) (L : List Message) : ∀ (K : List Nat)
    (c : Conversation), c ∈ newOnes owner K L →
    c.unread_count = cnt owner c.doctor_id L := by
  induction L with
  | nil => intro K c hc; simp [newOnes] at hc
  | cons m L ih =>
    intro K c hc
    by_cases hcon : K.contains (otherDoctor owner m) = true
    · rw [newOnes_cons_mem owner K m L hcon] at hc
      have hkey := newOnes_key_not_mem owner L K c hc
      rw [ih K c hc, cnt_cons_ne owner c.doctor_id m L
        (fun he => hkey (he ▸ List.elem_iff.mp hcon))]
    · rw [newOnes_cons_new owner K m L hcon] at hc
      rcases List.mem_cons.mp hc with h | h
      · rw [h]
      · have hkey := newOnes_key_not_mem owner L _ c h
        rw [ih _ c h, cnt_cons_ne owner c.doctor_id m L
          (fun he => hkey (List.mem_cons.mpr (Or.inl he.symm)))]

/-- Every constructed conversation takes its body and timestamp from one of
the listed messages of its own counterpart. -/
theorem newOnes_src (owner : Nat) (L : List Message) : ∀ (K : List Nat)
    (c : Conversation), c ∈ newOnes owner K L →
    ∃ x ∈ L, otherDoctor owner x = c.doctor_id ∧ c.last_message = x.message ∧
      c.last_message_time = x.created_at := by
  induction L with
  | nil => intro K c hc; simp [newOnes] at hc
  | cons m L ih =>
    intro K c hc
    by_cases hcon : K.contains (otherDoctor owner m) = true
    · rw [newOnes_cons_mem owner K m L hcon] at hc
      obtain ⟨x, hx, hrest⟩ := ih K c hc
      exact ⟨x, List.mem_cons.mpr (Or.inr hx), hrest⟩
    · rw [newOnes_cons_new owner K m L hcon] at hc
      rcases List.mem_cons.mp hc with h | h
      · exact ⟨m, List.mem_cons.mpr (Or.inl rfl), by rw [h]; exact ⟨rfl, rfl, rfl⟩⟩
      · obtain ⟨x, hx, hrest⟩ := ih _ c h
        exact ⟨x, List.mem_cons.mpr (Or.inr hx), hrest⟩

/-- Over a list sorted by created_at descending, every constructed
conversation carries the maximal timestamp of its counterpart. -/
theorem newOnes_max (owner : Nat) (L : List Message) : ∀ (K : List Nat)
    (c : Conversation),
    L.Pairwise (fun a b => b.created_at ≤ a.created_at) →
    c ∈ newOnes owner K L →
    ∀ y ∈ L, otherDoctor owner y = c.doctor_id → y.created_at ≤ c.last_message_time := by
  induction L with
  | nil => intro K c _ hc; simp [newOnes] at hc
  | cons m L ih =>
    intro K c hsort hc y hy hyk
    have hall := List.pairwise_cons.mp hsort
    by_cases hcon : K.contains (otherDoctor owner m) = true
    · rw [newOnes_cons_mem owner K m L hcon] at hc
      rcases List.mem_cons.mp hy with h | h
      · exfalso
        have hkey := newOnes_key_not_mem owner L K c hc
        rw [h] at hyk
        exact hkey (hyk ▸ List.elem_iff.mp hcon)
      · exact ih K c hall.2 hc y h hyk
    · rw [newOnes_cons_new owner K m L hcon] at hc
      rcases List.mem_cons.mp hc with hch | hch
      · rw [hch]
        rcases List.mem_cons.mp hy with h | h
        · rw [h]
        · exact hall.1 y h
      · rcases List.mem_cons.mp hy with h | h
        · exfalso
          have hkey := newOnes_key_not_mem owner L _ c hch
          rw [h] at hyk
          exact hkey (List.mem_cons.mpr (Or.inl hyk.symm))
        · exact ih _ c hall.2 hch y h hyk

/-- Over a list sorted by created_at descending, the constructed
conversation list is sorted by last_message_time descending. -/
theorem newOnes_sorted (owner : Nat) (L : List Message) : ∀ (K : List Nat),
    L.Pairwise (fun a b => b.created_at ≤ a.created_at) →
    (newOnes owner K L).Pairwise
      (fun a b => b.last_message_time ≤ a.last_message_time) := by
  induction L with
  | nil => intro K _; simp [newOnes]
  | cons m L ih =>
    intro K hsort
    have hall := List.pairwise_cons.mp hsort
    by_cases hcon : K.contains (otherDoctor owner m) = true
    · rw [newOnes_cons_mem owner K m L hcon]
      exact ih K hall.2
    · rw [newOnes_cons_new owner K m L hcon, List.pairwise_cons]
      constructor
      · intro c hc
        obtain ⟨x, hx, _, _, ht⟩ := newOnes_src owner L _ c hc
        rw [ht]
        exact hall.1 x hx
      · exact ih _ hall.2

/-- A message counted by unreadCount(owner, k), restricted to the rows of
the conversation query, is exactly a message of counterpart k that is an
unread received message of the owner.  This also covers the self-message
corner (sender = recipient = owner). -/
theorem unread_pred_eq (owner k : Nat) (m : Message) :
    ((otherDoctor owner m == k && unreadForOwner owner m) && involvedb owner m) =
      (m.sender_id == k && m.recipient_id == owner && !m.is_read) := by
  unfold otherDoctor unreadForOwner involvedb
  by_cases hs : m.sender_id = owner
  · have hsb : (m.sender_id == owner) = true := beq_iff_eq.mpr hs
    by_cases hr : m.recipient_id = owner
    · have hrb : (m.recipient_id == owner) = true := beq_iff_eq.mpr hr
      simp [hs, hr, hsb, hrb]
    · have hrb : (m.recipient_id == owner) = false := beq_eq_false_iff_ne.mpr hr
      simp [hsb, hrb, hs]
  · have hsb : (m.sender_id == owner) = false := beq_eq_false_iff_ne.mpr hs
    by_cases hr : m.recipient_id = owner
    · have hrb : (m.recipient_id == owner) = true := beq_iff_eq.mpr hr
      simp [hsb, hrb, hr]
    · have hrb : (m.recipient_id == owner) = false := beq_eq_false_iff_ne.mpr hr
      simp [hsb, hrb]

/-- C3: for every counterpart present in the aggregated conversation list,
unread_count equals the number of messages of the store sent by that
counterpart to the owner and still unread.  `Q` is the result of the
conversation query: a permutation (any ordering) of the rows of the store
involving the owner. -/
theorem dm_C3_unread_matches_store (owner : Nat) (store Q : List Message)
    (hQ : Q.Perm (store.filter (involvedb owner)))
    (c : Conversation) (hc : c ∈ fetchConversations owner Q) :
    c.unread_count = countUnreadFrom owner c.doctor_id store := by
  rw [fetchConversations_eq_newOnes] at hc
  rw [newOnes_unread owner Q [] c hc]
  unfold cnt countUnreadFrom
  rw [hQ.countP_eq, List.countP_filter]
  exact countP_congr_bool _ _ store (fun m _ => unread_pred_eq owner c.doctor_id m)

/-- Witness for C3 at a concrete store and query result. -/
theorem dm_C3_unread_matches_store_witness :
    ([{ id := 0, sender_id := 2, recipient_id := 1, message := "a",
        is_read := false, created_at := 5 }] : List Message).Perm
      (([{ id := 0, sender_id := 2, recipient_id := 1, message := "a",
           is_read := false, created_at := 5 }] : List Message).filter (involvedb 1)) ∧
    { doctor_id := 2, last_message := "a", last_message_time := 5,
      unread_count := 1 } ∈
      fetchConversations 1
        [{ id := 0, sender_id := 2, recipient_id := 1, message := "a",
           is_read := false, created_at := 5 }] ∧
    Conversation.unread_count
        { doctor_id := 2, last_message := "a", last_message_time := 5, unread_count := 1 } =
      countUnreadFrom 1 2
        [{ id := 0, sender_id := 2, recipient_id := 1, message := "a",
           is_read := false, created_at := 5 }] :=
  ⟨by decide, by decide,
   dm_C3_unread_matches_store 1
     [{ id := 0, sender_id := 2, recipient_id := 1, message := "a",
        is_read := false, created_at := 5 }]
     [{ id := 0, sender_id := 2, recipient_id := 1, message := "a",
        is_read := false, created_at := 5 }]
     (by decide)
     { doctor_id := 2, last_message := "a", last_message_time := 5, unread_count := 1 }
     (by decide)⟩

/-- C4: over a query result sorted by created_at descending, every
conversation of the aggregated list takes last_message and
last_message_time from a message of its own counterpart partition with
maximal created_at. -/
theorem dm_C4_last_message_is_max (owner : Nat) (L : List Message)
    (hsort : L.Pairwise (fun a b => b.created_at ≤ a.created_at))
    (c : Conversation) (hc : c ∈ fetchConversations owner L) :
    ∃ x ∈ L, otherDoctor owner x = c.doctor_id ∧ c.last_message = x.message ∧
      c.last_message_time = x.created_at ∧
      ∀ y ∈ L, otherDoctor owner y = c.doctor_id → y.created_at ≤ x.created_at := by
  rw [fetchConversations_eq_newOnes] at hc
  obtain ⟨x, hx, hxk, hxm, hxt⟩ := newOnes_src owner L [] c hc
  refine ⟨x, hx, hxk, hxm, hxt, fun y hy hyk => ?_⟩
  have h := newOnes_max owner L [] c hsort hc y hy hyk
  rwa [hxt] at h

/-- Witness for C4 at a concrete sorted query result. -/
theorem dm_C4_last_message_is_max_witness :
    ([{ id := 1, sender_id := 2, recipient_id := 1, message := "late",
        is_read := false, created_at := 9 },
      { id := 0, sender_id := 1, recipient_id := 2, message := "early",
        is_read := true, created_at := 3 }] : List Message).Pairwise
      (fun a b => b.created_at ≤ a.created_at) ∧
    { doctor_id := 2, last_message := "late", last_message_time := 9,
      unread_count := 1 } ∈
      fetchConversations 1
        [{ id := 1, sender_id := 2, recipient_id := 1, message := "late",
           is_read := false, created_at := 9 },
         { id := 0, sender_id := 1, recipient_id := 2, message := "early",
           is_read := true, created_at := 3 }] ∧
    (∃ x ∈ ([{ id := 1, sender_id := 2, recipient_id := 1, message := "late",
               is_read := false, created_at := 9 },
             { id := 0, sender_id := 1, recipient_id := 2, message := "early",
               is_read := true, created_at := 3 }] : List Message),
      otherDoctor 1 x = 2 ∧ "late" = x.message ∧ (9 : Nat) = x.created_at ∧
      ∀ y ∈ ([{ id := 1, sender_id := 2, recipient_id := 1, message := "late",
                is_read := false, created_at := 9 },
              { id := 0, sender_id := 1, recipient_id := 2, message := "early",
                is_read := true, created_at := 3 }] : List Message),
        otherDoctor 1 y = 2 → y.created_at ≤ x.created_at) :=
  ⟨by decide, by decide,
   dm_C4_last_message_is_max 1
     [{ id := 1, sender_id := 2, recipient_id := 1, message := "late",
        is_read := false, created_at := 9 },
      { id := 0, sender_id := 1, recipient_id := 2, message := "early",
        is_read := true, created_at := 3 }]
     (by decide)
     { doctor_id := 2, last_message := "late", last_message_time := 9, unread_count := 1 }
     (by decide)⟩

/-- Concrete query result exhibiting a tie in created_at between two
counterparts (3 and 2) of owner 1: both rows carry timestamp 5 and the
query may deliver them in this order (it is sorted descending either way). -/
def tieQuery : List Message :=
  [{ id := 0, sender_id := 3, recipient_id := 1, message := "a",
     is_read := false, created_at := 5 },
   { id := 1, sender_id := 2, recipient_id := 1, message := "b",
     is_read := false, created_at := 5 }]

/-- C2 counterexample: on a legitimate query result (descending by
created_at and a permutation of the involved rows), the produced
conversation list is NOT sorted with ties broken by counterpart id
ascending: counterpart 3 precedes counterpart 2 at equal
last_message_time.  The code never sorts by counterpart id; tie order is
inherited from the query. -/
theorem dm_C2_tiebreak_counterexample :
    tieQuery.Pairwise (fun a b => b.created_at ≤ a.created_at) ∧
    tieQuery.Perm (tieQuery.filter (involvedb 1)) ∧
    ¬ (fetchConversations 1 tieQuery).Pairwise
        (fun a b => b.last_message_time < a.last_message_time ∨
          (b.last_message_time = a.last_message_time ∧ a.doctor_id < b.doctor_id)) := by
  refine ⟨by decide, by decide, by decide⟩

/-- C2 (amended): over a query result sorted by created_at descending, the
conversation list is sorted by last_message_time descending
(non-increasing); equal timestamps keep the order in which the query
delivered the partitions, with no counterpart-id tie-break. -/
theorem dm_C2_sorted_desc_amended (owner : Nat) (L : List Message)
    (hsort : L.Pairwise (fun a b => b.created_at ≤ a.created_at)) :
    (fetchConversations owner L).Pairwise
      (fun a b => b.last_message_time ≤ a.last_message_time) := by
  rw [fetchConversations_eq_newOnes]
  exact newOnes_sorted owner L [] hsort

/-- Witness for the amended C2 at a concrete sorted query result. -/
theorem dm_C2_sorted_desc_amended_witness :
    ([{ id := 1, sender_id := 2, recipient_id := 1, message := "x",
        is_read := false, created_at := 7 },
      { id := 0, sender_id := 3, recipient_id := 1, message := "y",
        is_read := false, created_at := 5 }] : List Message).Pairwise
      (fun a b => b.created_at ≤ a.created_at) ∧
    (fetchConversations 1
        [{ id := 1, sender_id := 2, recipient_id := 1, message := "x",
           is_read := false, created_at := 7 },
         { id := 0, sender_id := 3, recipient_id := 1, message := "y",
           is_read := false, created_at := 5 }]).Pairwise
      (fun a b => b.last_message_time ≤ a.last_message_time) :=
  ⟨by decide,
   dm_C2_sorted_desc_amended 1
     [{ id := 1, sender_id := 2, recipient_id := 1, message := "x",
        is_read := false, created_at := 7 },
      { id := 0, sender_id := 3, recipient_id := 1, message := "y",
        is_read := false, created_at := 5 }]
     (by decide)⟩

/-- Modelled from the spec: the incremental new-message update of the
Conversation Aggregator (spec section 4.3), which the source does not
implement (its event handler refetches instead, line 250 of
useDirectMessages.ts).  On a new-message event for counterpart C: if no
conversation for C exists, create one; otherwise update
lastMessageBody/lastMessageTime unconditionally and increment unreadCount
by one if the owner is the recipient.  The touched conversation is placed
at the head: the new message carries the greatest createdAt, so this keeps
the list in the sorted order of section 4.3 step 4. -/
def incSend (owner : Nat) (m : Message) (S : List Conversation) : List Conversation :=
  match S.find? (fun c => c.doctor_id == otherDoctor owner m) with
  | none =>
    { doctor_id := otherDoctor owner m, last_message := m.message,
      last_message_time := m.created_at,
      unread_count := if m.recipient_id == owner then 1 else 0 } :: S
  | some c =>
    { doctor_id := otherDoctor owner m, last_message := m.message,
      last_message_time := m.created_at,
      unread_count := c.unread_count + (if m.recipient_id == owner then 1 else 0) } ::
      S.filter (fun c2 => !(c2.doctor_id == otherDoctor owner m))

/-- Modelled from the spec: the incremental read-state update of the
Conversation Aggregator (spec section 4.3), absent from the source for the
same reason.  On a read-state event for counterpart C with
numberNewlyRead = n, recompute unreadCount as max(0, previous - n); Nat
subtraction is exactly that truncation, so the count can never go
negative. -/
def incRead (counterpartId n : Nat) (S : List Conversation) : List Conversation :=
  S.map (fun c =>
    if c.doctor_id == counterpartId then { c with unread_count := c.unread_count - n }
    else c)

/-- One interleaving step of the scenario of the equivalence property: a
send (through sendMessage) by any user to any user, or a conversation open
(through fetchMessages) by any user. -/
inductive Op where
  | send (senderId recipientId : Nat) (text : String) (newId newTime : Nat)
  | openConv (userId doctorId : Nat)

/-- Effect of one interleaving step on the durable store, through the
source operations. -/
def applyStoreOp (op : Op) (store : List Message) : List Message :=
  match op with
  | Op.send a b t nid nt => (sendMessage a b t nid nt store).2
  | Op.openConv u d => fetchMessagesStore u d store

/-- Row inserted by a successful `sendMessage a b t nid nt`: trimmed body,
unread, server-assigned id and timestamp. -/
def sentRow (a b : Nat) (t : String) (nid nt : Nat) : Message :=
  { id := nid, sender_id := a, recipient_id := b,
    message := jsTrim t, is_read := false, created_at := nt }

/-- Modelled from the spec: how one interleaving step reaches the owner
incrementally.  A send that actually inserts a row is delivered as a
new-message event exactly when the owner is a party of the row (the change
feed filter of spec section 4.2); a conversation open by the owner is a
read-state event for that counterpart carrying the size of the newly read
batch (spec sections 4.3 and 4.4); opens by other users emit no event for
the owner (is_read transitions are not pushed, spec section 6). -/
def applyIncOp (owner : Nat) (op : Op) (store : List Message) (S : List Conversation) :
    List Conversation :=
  match op with
  | Op.send a b t nid nt =>
    if jsTrim t == "" then S
    else
      if involvedb owner (sentRow a b t nid nt) then incSend owner (sentRow a b t nid nt) S
      else S
  | Op.openConv u d =>
    if u == owner then incRead d (unreadIds u d store).length S else S

/-- Run an interleaving against the store and, in lockstep, against the
incrementally maintained conversation list of the owner. -/
def runPair (owner : Nat) : List Op → List Message → List Conversation →
    List Message × List Conversation
  | [], store, S => (store, S)
  | op :: ops, store, S =>
    runPair owner ops (applyStoreOp op store) (applyIncOp owner op store S)

/-- Server-side well-formedness of one step against the current store:
an inserting send carries a fresh id and a created_at strictly above every
existing row (the store assigns monotonically increasing timestamps, spec
section 4.1). -/
def wfOpB (store : List Message) (op : Op) : Bool :=
  match op with
  | Op.send _ _ t nid nt =>
    jsTrim t == "" ||
      store.all (fun m => (decide (m.created_at < nt)) && !(m.id == nid))
  | Op.openConv _ _ => true

/-- Well-formedness of a whole interleaving from a starting store. -/
def wfOpsB (store : List Message) : List Op → Bool
  | [] => true
  | op :: ops => wfOpB store op && wfOpsB (applyStoreOp op store) ops

/-- Store invariant maintained by well-formed interleavings: rows are in
strictly increasing created_at order (insertion order) and ids are
distinct. -/
def StoreInv (store : List Message) : Prop :=
  store.Pairwise (fun a b => a.created_at < b.created_at) ∧
  (store.map Message.id).Nodup

/-- The full rescan of the specification: fetchConversations applied to the
conversation query result for the owner.  For a store kept in insertion
order with strictly increasing created_at, the descending-created_at order
the query delivers is exactly the reverse of the filtered store. -/
def rescan (owner : Nat) (store : List Message) : List Conversation :=
  fetchConversations owner ((store.filter (involvedb owner)).reverse)

/-- Unfolding of the incremental new-message update when the counterpart is
new. -/
theorem incSend_none (owner : Nat) (m : Message) (S : List Conversation)
    (h : S.find? (fun c => c.doctor_id == otherDoctor owner m) = none) :
    incSend owner m S =
      { doctor_id := otherDoctor owner m, last_message := m.message,
        last_message_time := m.created_at,
        unread_count := if m.recipient_id == owner then 1 else 0 } :: S := by
  unfold incSend
  rw [h]

/-- Unfolding of the incremental new-message update on an existing
counterpart. -/
theorem incSend_some (owner : Nat) (m : Message) (S : List Conversation) (c : Conversation)
    (h : S.find? (fun c2 => c2.doctor_id == otherDoctor owner m) = some c) :
    incSend owner m S =
      { doctor_id := otherDoctor owner m, last_message := m.message,
        last_message_time := m.created_at,
        unread_count := c.unread_count + (if m.recipient_id == owner then 1 else 0) } ::
        S.filter (fun c2 => !(c2.doctor_id == otherDoctor owner m)) := by
  unfold incSend
  rw [h]

/-- A read-state event for zero newly read messages changes nothing. -/
theorem incRead_zero (d : Nat) (S : List Conversation) : incRead d 0 S = S := by
  refine list_map_eq_self _ S (fun c _ => ?_)
  cases c with
  | mk k lm lt u =>
    by_cases h : k = d
    · simp [h]
    · simp [h]

/-- Looking up a counterpart outside the key set in the constructed list
finds exactly the conversation of its first message, carrying the full
unread tally. -/
theorem newOnes_find (owner k : Nat) (L : List Message) : ∀ (K : List Nat),
    ¬ (K.contains k = true) →
    (newOnes owner K L).find? (fun c => c.doctor_id == k) =
      (L.find? (fun x => otherDoctor owner x == k)).map
        (fun f => { doctor_id := k, last_message := f.message,
                    last_message_time := f.created_at, unread_count := cnt owner k L }) := by
  induction L with
  | nil => intro K _; rfl
  | cons m L ih =>
    intro K hK
    by_cases hcon : K.contains (otherDoctor owner m) = true
    · have hne : otherDoctor owner m ≠ k := fun he => hK (he ▸ hcon)
      have hb : (otherDoctor owner m == k) = false := beq_eq_false_iff_ne.mpr hne
      rw [newOnes_cons_mem owner K m L hcon]
      simp only [List.find?, hb]
      rw [cnt_cons_ne owner k m L hne]
      exact ih K hK
    · rw [newOnes_cons_new owner K m L hcon]
      by_cases hk2 : otherDoctor owner m = k
      · have hb : (otherDoctor owner m == k) = true := beq_iff_eq.mpr hk2
        simp only [List.find?, hb]
        simp [hk2]
      · have hK2 : ¬ ((otherDoctor owner m :: K).contains k = true) := fun hc => by
          rcases List.mem_cons.mp (List.elem_iff.mp hc) with h | h
          · exact hk2 h.symm
          · exact hK (List.elem_iff.mpr h)
        have hb : (otherDoctor owner m == k) = false := beq_eq_false_iff_ne.mpr hk2
        simp only [List.find?, hb]
        rw [cnt_cons_ne owner k m L hk2]
        exact ih _ hK2

/-- Filtering a key out of the constructed list is the same as having
started with that key in the key set. -/
theorem newOnes_filter_of_mem (owner k : Nat) (L : List Message) (K : List Nat)
    (hk : k ∈ K) :
    (newOnes owner K L).filter (fun c => !(c.doctor_id == k)) = newOnes owner K L := by
  apply List.filter_eq_self.mpr
  intro c hc
  have hnm := newOnes_key_not_mem owner L K c hc
  simp only [Bool.not_eq_true', beq_eq_false_iff_ne]
  exact fun he => hnm (he ▸ hk)

/-- Removing one key from the constructed list equals constructing with the
key already excluded. -/
theorem newOnes_filter_ne (owner k : Nat) (L : List Message) : ∀ (K : List Nat),
    (newOnes owner K L).filter (fun c => !(c.doctor_id == k)) =
      newOnes owner (k :: K) L := by
  induction L with
  | nil => intro K; rfl
  | cons m L ih =>
    intro K
    by_cases hcon : K.contains (otherDoctor owner m) = true
    · rw [newOnes_cons_mem owner K m L hcon,
          newOnes_cons_mem owner (k :: K) m L
            (List.elem_iff.mpr (List.mem_cons.mpr (Or.inr (List.elem_iff.mp hcon)))),
          ih K]
    · rw [newOnes_cons_new owner K m L hcon]
      by_cases hk2 : otherDoctor owner m = k
      · rw [List.filter_cons, if_neg (by simp [hk2]), hk2,
            newOnes_cons_mem owner (k :: K) m L
              (List.elem_iff.mpr (List.mem_cons.mpr (Or.inl hk2)))]
        exact newOnes_filter_of_mem owner k L (k :: K) (List.mem_cons.mpr (Or.inl rfl))
      · have hmem2 : ¬ ((k :: K).contains (otherDoctor owner m) = true) := fun hc => by
          rcases List.mem_cons.mp (List.elem_iff.mp hc) with h | h
          · exact hk2 h
          · exact hcon (List.elem_iff.mpr h)
        rw [List.filter_cons, if_pos (by simp [hk2]),
            newOnes_cons_new owner (k :: K) m L hmem2, ih (otherDoctor owner m :: K)]
        exact congrArg _ (newOnes_congr owner L _ _ (fun x => by
          simp only [List.mem_cons]
          constructor
          · rintro (h | h | h)
            · exact Or.inr (Or.inl h)
            · exact Or.inl h
            · exact Or.inr (Or.inr h)
          · rintro (h | h | h)
            · exact Or.inr (Or.inl h)
            · exact Or.inl h
            · exact Or.inr (Or.inr h)))

/-- Send step of the equivalence: folding one more (still unread) message at
the head of the query result is exactly the incremental new-message update
of the spec applied to the previous conversation list. -/
theorem fetchConversations_cons_eq_incSend (owner : Nat) (m : Message) (L : List Message)
    (hread : m.is_read = false) :
    fetchConversations owner (m :: L) = incSend owner m (fetchConversations owner L) := by
  rw [fetchConversations_eq_newOnes, fetchConversations_eq_newOnes]
  have hnil : ¬ (([] : List Nat).contains (otherDoctor owner m) = true) := by simp
  have hfind := newOnes_find owner (otherDoctor owner m) L [] hnil
  have hind : (if unreadForOwner owner m = true then 1 else 0) =
      (if (m.recipient_id == owner) = true then 1 else 0) := by
    unfold unreadForOwner
    rw [hread]
    simp
  rw [newOnes_cons_new owner [] m L hnil]
  cases hf : L.find? (fun x => otherDoctor owner x == otherDoctor owner m) with
  | none =>
    rw [hf] at hfind
    rw [incSend_none owner m _ (by simpa using hfind)]
    have hcnt0 : cnt owner (otherDoctor owner m) L = 0 := by
      apply List.countP_eq_zero.mpr
      intro x hx hp
      exact (List.find?_eq_none.mp hf) x hx (Bool.and_eq_true _ _ |>.mp hp).1
    have hfilter : (newOnes owner [] L).filter
        (fun c => !(c.doctor_id == otherDoctor owner m)) = newOnes owner [] L := by
      apply List.filter_eq_self.mpr
      intro c hc
      obtain ⟨x, hx, hxk, _, _⟩ := newOnes_src owner L [] c hc
      have hne : c.doctor_id ≠ otherDoctor owner m := fun he =>
        (List.find?_eq_none.mp hf) x hx (beq_iff_eq.mpr (by rw [hxk, he]))
      simp [hne]
    rw [← hfilter, newOnes_filter_ne owner (otherDoctor owner m) L [],
        cnt_cons_self owner m L, hcnt0, hind]
    simp
  | some f =>
    rw [hf] at hfind
    rw [Option.map_some'] at hfind
    rw [incSend_some owner m _ _ hfind, newOnes_filter_ne owner (otherDoctor owner m) L [],
        cnt_cons_self owner m L, hind]

/-- A row transformation that clears unread on counterpart d wipes the
tally of d. -/
theorem cnt_map_read_eq_zero (owner d : Nat) (g : Message → Message) (L : List Message)
    (hg1 : ∀ x ∈ L, otherDoctor owner (g x) = otherDoctor owner x)
    (hgd : ∀ x ∈ L, otherDoctor owner x = d → unreadForOwner owner (g x) = false) :
    cnt owner d (L.map g) = 0 := by
  unfold cnt
  rw [List.countP_map]
  apply List.countP_eq_zero.mpr
  intro x hx hp
  obtain ⟨h1, h2⟩ := Bool.and_eq_true _ _ |>.mp hp
  rw [hg1 x hx] at h1
  rw [hgd x hx (beq_iff_eq.mp h1)] at h2
  cases h2

/-- A row transformation that only clears unread on counterpart d leaves
the tallies of other counterparts alone. -/
theorem cnt_map_read_eq (owner d k : Nat) (g : Message → Message) (L : List Message)
    (hk : k ≠ d)
    (hg1 : ∀ x ∈ L, otherDoctor owner (g x) = otherDoctor owner x)
    (hgo : ∀ x ∈ L, otherDoctor owner x ≠ d →
      unreadForOwner owner (g x) = unreadForOwner owner x) :
    cnt owner k (L.map g) = cnt owner k L := by
  unfold cnt
  rw [List.countP_map]
  apply countP_congr_bool
  intro x hx
  simp only [Function.comp_apply]
  by_cases ho : otherDoctor owner x = k
  · rw [hg1 x hx, hgo x hx (fun he => hk (by rw [← ho, he]))]
  · rw [hg1 x hx]
    have hb : (otherDoctor owner x == k) = false := beq_eq_false_iff_ne.mpr ho
    rw [hb]
    simp

/-- Read step at the level of the closed-form construction: a row
transformation that preserves counterpart, body and timestamp, clears
unread exactly on counterpart d and preserves it elsewhere, zeroes the
unread count of the d conversation and leaves everything else alone. -/
theorem newOnes_map_read (owner d : Nat) (g : Message → Message) (L : List Message) :
    ∀ K : List Nat,
    (∀ x ∈ L, otherDoctor owner (g x) = otherDoctor owner x ∧
      (g x).message = x.message ∧ (g x).created_at = x.created_at) →
    (∀ x ∈ L, otherDoctor owner x = d → unreadForOwner owner (g x) = false) →
    (∀ x ∈ L, otherDoctor owner x ≠ d →
      unreadForOwner owner (g x) = unreadForOwner owner x) →
    newOnes owner K (L.map g) = (newOnes owner K L).map
      (fun c => if c.doctor_id == d then { c with unread_count := 0 } else c) := by
  induction L with
  | nil => intro K _ _ _; rfl
  | cons m L ih =>
    intro K hg hgd hgo
    have hm : m ∈ m :: L := List.mem_cons.mpr (Or.inl rfl)
    have hgL : ∀ x ∈ L, otherDoctor owner (g x) = otherDoctor owner x ∧
        (g x).message = x.message ∧ (g x).created_at = x.created_at :=
      fun x hx => hg x (List.mem_cons.mpr (Or.inr hx))
    have hgdL : ∀ x ∈ L, otherDoctor owner x = d → unreadForOwner owner (g x) = false :=
      fun x hx => hgd x (List.mem_cons.mpr (Or.inr hx))
    have hgoL : ∀ x ∈ L, otherDoctor owner x ≠ d →
        unreadForOwner owner (g x) = unreadForOwner owner x :=
      fun x hx => hgo x (List.mem_cons.mpr (Or.inr hx))
    rw [List.map_cons]
    by_cases hcon : K.contains (otherDoctor owner m) = true
    · rw [newOnes_cons_mem owner K (g m) (L.map g) (by rw [(hg m hm).1]; exact hcon),
          newOnes_cons_mem owner K m L hcon]
      exact ih K hgL hgdL hgoL
    · rw [newOnes_cons_new owner K (g m) (L.map g)
            (by rw [(hg m hm).1]; exact hcon),
          newOnes_cons_new owner K m L hcon, List.map_cons]
      congr 1
      · rw [(hg m hm).1, (hg m hm).2.1, (hg m hm).2.2]
        by_cases hk : otherDoctor owner m = d
        · have hb : ((otherDoctor owner m : Nat) == d) = true := beq_iff_eq.mpr hk
          rw [if_pos hb]
          rw [show (g m :: L.map g) = (m :: L).map g from rfl, hk,
              cnt_map_read_eq_zero owner d g (m :: L)
                (fun x hx => (hg x hx).1) hgd]
        · have hb : ((otherDoctor owner m : Nat) == d) = false := beq_eq_false_iff_ne.mpr hk
          rw [if_neg (by rw [hb]; exact Bool.false_ne_true)]
          rw [show (g m :: L.map g) = (m :: L).map g from rfl,
              cnt_map_read_eq owner d (otherDoctor owner m) g (m :: L) hk
                (fun x hx => (hg x hx).1) hgo]
      · rw [(hg m hm).1]
        exact ih (otherDoctor owner m :: K) hgL hgdL hgoL

/-- A row transformation preserving counterpart, body, timestamp and the
unread observation leaves the constructed conversation list unchanged. -/
theorem newOnes_map_invariant (owner : Nat) (g : Message → Message) (L : List Message) :
    ∀ K : List Nat,
    (∀ x ∈ L, otherDoctor owner (g x) = otherDoctor owner x ∧
      (g x).message = x.message ∧ (g x).created_at = x.created_at ∧
      unreadForOwner owner (g x) = unreadForOwner owner x) →
    newOnes owner K (L.map g) = newOnes owner K L := by
  induction L with
  | nil => intro K _; rfl
  | cons m L ih =>
    intro K hg
    have hm : m ∈ m :: L := List.mem_cons.mpr (Or.inl rfl)
    have hgL : ∀ x ∈ L, otherDoctor owner (g x) = otherDoctor owner x ∧
        (g x).message = x.message ∧ (g x).created_at = x.created_at ∧
        unreadForOwner owner (g x) = unreadForOwner owner x :=
      fun x hx => hg x (List.mem_cons.mpr (Or.inr hx))
    have hcnt : ∀ k, cnt owner k ((m :: L).map g) = cnt owner k (m :: L) := by
      intro k
      unfold cnt
      rw [List.countP_map]
      apply countP_congr_bool
      intro x hx
      simp only [Function.comp_apply]
      rw [(hg x hx).1, (hg x hx).2.2.2]
    rw [List.map_cons]
    by_cases hcon : K.contains (otherDoctor owner m) = true
    · rw [newOnes_cons_mem owner K (g m) (L.map g) (by rw [(hg m hm).1]; exact hcon),
          newOnes_cons_mem owner K m L hcon]
      exact ih K hgL
    · rw [newOnes_cons_new owner K (g m) (L.map g)
            (by rw [(hg m hm).1]; exact hcon),
          newOnes_cons_new owner K m L hcon]
      congr 1
      · rw [(hg m hm).1, (hg m hm).2.1, (hg m hm).2.2.1,
            show (g m :: L.map g) = (m :: L).map g from rfl, hcnt]
      · rw [(hg m hm).1]
        exact ih (otherDoctor owner m :: K) hgL

/-- The marking update preserves involvement. -/
theorem involvedb_markOne (owner uid : Nat) (ids : List Nat) (x : Message) :
    involvedb owner (markOne uid ids x) = involvedb owner x := by
  unfold involvedb
  rw [markOne_sender, markOne_recipient]

/-- The marking update preserves the counterpart. -/
theorem otherDoctor_markOne (owner uid : Nat) (ids : List Nat) (x : Message) :
    otherDoctor owner (markOne uid ids x) = otherDoctor owner x := by
  unfold otherDoctor
  rw [markOne_sender, markOne_recipient]

/-- A message involving the owner whose counterpart is d passes the thread
filter of the (owner, d) conversation. -/
theorem threadFilter_of_other (owner d : Nat) (x : Message)
    (hinv : involvedb owner x = true) (ho : otherDoctor owner x = d) :
    threadFilter owner d x = true := by
  unfold otherDoctor at ho
  unfold threadFilter
  by_cases hs : x.sender_id = owner
  · have hb : (x.sender_id == owner) = true := beq_iff_eq.mpr hs
    rw [if_pos hb] at ho
    rw [hb, beq_iff_eq.mpr ho]
    simp
  · have hb : (x.sender_id == owner) = false := beq_eq_false_iff_ne.mpr hs
    rw [if_neg (by rw [hb]; exact Bool.false_ne_true)] at ho
    have hr : x.recipient_id = owner := by
      rcases Bool.or_eq_true _ _ |>.mp hinv with h | h
      · exact absurd (beq_iff_eq.mp h) hs
      · exact beq_iff_eq.mp h
    rw [beq_iff_eq.mpr ho, beq_iff_eq.mpr hr]
    simp

/-- A thread message received by the owner has counterpart d. -/
theorem other_of_thread_unread (owner d : Nat) (x : Message)
    (ht : threadFilter owner d x = true) (hr : x.recipient_id = owner) :
    otherDoctor owner x = d := by
  unfold threadFilter at ht
  unfold otherDoctor
  rcases Bool.or_eq_true _ _ |>.mp ht with h | h
  · obtain ⟨hs, hrd⟩ := Bool.and_eq_true _ _ |>.mp h
    rw [if_pos hs]
    exact beq_iff_eq.mp hrd
  · obtain ⟨hsd, _⟩ := Bool.and_eq_true _ _ |>.mp h
    by_cases hs : x.sender_id = owner
    · rw [if_pos (beq_iff_eq.mpr hs)]
      rw [hr, ← hs]
      exact beq_iff_eq.mp hsd
    · rw [if_neg (by rw [beq_eq_false_iff_ne.mpr hs]; exact Bool.false_ne_true)]
      exact beq_iff_eq.mp hsd

/-- On unread received messages the rescan predicate for counterpart d
restricted to involved rows coincides with the thread-and-unread predicate
of the open-conversation batch. -/
theorem read_pred_eq (owner d : Nat) (x : Message) :
    ((otherDoctor owner x == d && unreadForOwner owner x) && involvedb owner x) =
      (unreadForOwner owner x && threadFilter owner d x) := by
  by_cases hu : unreadForOwner owner x = true
  · have hr : x.recipient_id = owner :=
      beq_iff_eq.mp (Bool.and_eq_true _ _ |>.mp hu).1
    have hinv : involvedb owner x = true := by
      unfold involvedb
      rw [beq_iff_eq.mpr hr]
      simp
    rw [hu, hinv]
    simp only [Bool.and_true, Bool.true_and]
    cases hb : (otherDoctor owner x == d)
    · cases ht : threadFilter owner d x
      · rfl
      · exact absurd (beq_iff_eq.mpr (other_of_thread_unread owner d x ht hr))
          (by rw [hb]; exact Bool.false_ne_true)
    · rw [threadFilter_of_other owner d x hinv (beq_iff_eq.mp hb)]
  · have hub : unreadForOwner owner x = false := by
      cases h2 : unreadForOwner owner x
      · rfl
      · exact absurd h2 hu
    rw [hub]
    simp

/-- The batch size of an open equals the unread tally of that counterpart
over the query result of the rescan. -/
theorem unreadIds_length_eq_cnt (owner d : Nat) (store : List Message) :
    (unreadIds owner d store).length =
      cnt owner d ((store.filter (involvedb owner)).reverse) := by
  unfold unreadIds cnt
  rw [List.length_map, ← List.countP_eq_length_filter, List.countP_filter,
      (List.reverse_perm _).countP_eq, List.countP_filter]
  apply countP_congr_bool
  intro x _
  exact (read_pred_eq owner d x).symm

/-- A row whose id is in the collected batch is a thread message of d,
received by the requesting user and unread (under distinct ids). -/
theorem mem_unreadIds_inv (u d : Nat) (store : List Message) (x : Message)
    (hids : (store.map Message.id).Nodup) (hx : x ∈ store)
    (hin : x.id ∈ unreadIds u d store) :
    threadFilter u d x = true ∧ unreadForOwner u x = true := by
  obtain ⟨y, hy, hyid⟩ := List.mem_map.mp hin
  obtain ⟨hy1, hy2⟩ := List.mem_filter.mp hy
  obtain ⟨hy0, hy3⟩ := List.mem_filter.mp hy1
  have hxy : y = x := List.inj_on_of_nodup_map hids hy0 hx hyid
  rw [← hxy]
  exact ⟨hy3, hy2⟩

/-- The open-conversation batch does not change the unread observation of
any other counterpart. -/
theorem unreadForOwner_markOne_pres (owner d : Nat) (store : List Message) (x : Message)
    (hids : (store.map Message.id).Nodup) (hx : x ∈ store)
    (ho : otherDoctor owner x ≠ d) :
    unreadForOwner owner (markOne owner (unreadIds owner d store) x) =
      unreadForOwner owner x := by
  unfold markOne
  split
  · next hcond =>
    exfalso
    obtain ⟨hc1, hc2⟩ := Bool.and_eq_true _ _ |>.mp hcond
    have hmem : x.id ∈ unreadIds owner d store := List.elem_iff.mp hc1
    obtain ⟨ht, hu⟩ := mem_unreadIds_inv owner d store x hids hx hmem
    exact ho (other_of_thread_unread owner d x ht
      (beq_iff_eq.mp (Bool.and_eq_true _ _ |>.mp hu).1))
  · rfl

/-- A read-marking by a user other than the owner does not change the
unread observation of the owner. -/
theorem unreadForOwner_markOne_other (owner u : Nat) (ids : List Nat) (x : Message)
    (hne : u ≠ owner) :
    unreadForOwner owner (markOne u ids x) = unreadForOwner owner x := by
  unfold markOne
  split
  · next hcond =>
    have hr : x.recipient_id = u := beq_iff_eq.mp (Bool.and_eq_true _ _ |>.mp hcond).2
    have hb : (u == owner) = false := beq_eq_false_iff_ne.mpr hne
    simp [unreadForOwner, hr, hb]
  · rfl

/-- Filtering commutes with a row transformation that does not change the
filtered predicate. -/
theorem filter_map_of_pred (p : Message → Bool) (g : Message → Message) (l : List Message)
    (h : ∀ x ∈ l, p (g x) = p x) : (l.map g).filter p = (l.filter p).map g := by
  induction l with
  | nil => rfl
  | cons a t ih =>
    rw [List.map_cons, List.filter_cons, List.filter_cons, h a (by simp)]
    by_cases ha : p a = true
    · rw [if_pos ha, if_pos ha, List.map_cons, ih (fun x hx => h x (by simp [hx]))]
    · rw [if_neg ha, if_neg ha, ih (fun x hx => h x (by simp [hx]))]

/-- Send step of the equivalence at the store level: after an inserting
send, the full rescan equals the incremental new-message update (or is
unchanged if the owner is not a party). -/
theorem rescan_send (owner a b : Nat) (t : String) (nid nt : Nat) (store : List Message)
    (ht : ¬ (jsTrim t == "") = true) :
    rescan owner ((sendMessage a b t nid nt store).2) =
      if involvedb owner (sentRow a b t nid nt) then
        incSend owner (sentRow a b t nid nt) (rescan owner store)
      else rescan owner store := by
  have h2 : (sendMessage a b t nid nt store).2 = store ++ [sentRow a b t nid nt] := by
    unfold sendMessage sentRow
    rw [if_neg ht]
  rw [h2]
  unfold rescan
  rw [List.filter_append]
  by_cases hi : involvedb owner (sentRow a b t nid nt) = true
  · rw [if_pos hi,
        show (([sentRow a b t nid nt] : List Message).filter (involvedb owner)) =
          [sentRow a b t nid nt] from by rw [List.filter_cons, if_pos hi]; rfl,
        List.reverse_append,
        show ([sentRow a b t nid nt] : List Message).reverse = [sentRow a b t nid nt]
          from rfl,
        List.singleton_append]
    exact fetchConversations_cons_eq_incSend owner (sentRow a b t nid nt) _ rfl
  · rw [if_neg hi,
        show (([sentRow a b t nid nt] : List Message).filter (involvedb owner)) = []
          from by rw [List.filter_cons, if_neg hi]; rfl,
        List.append_nil]

/-- Read step of the equivalence for a non-owner session: an open by
another user does not change the rescan of the owner. -/
theorem rescan_open_other (owner u d : Nat) (store : List Message) (hne : u ≠ owner) :
    rescan owner (fetchMessagesStore u d store) = rescan owner store := by
  unfold fetchMessagesStore
  split
  · rfl
  · unfold rescan markRead
    rw [filter_map_of_pred (involvedb owner) (markOne u (unreadIds u d store)) store
          (fun x _ => involvedb_markOne owner u _ x),
        ← List.map_reverse,
        fetchConversations_eq_newOnes, fetchConversations_eq_newOnes]
    exact newOnes_map_invariant owner _ _ [] (fun x _ =>
      ⟨otherDoctor_markOne owner u _ x, markOne_message u _ x, markOne_created_at u _ x,
       unreadForOwner_markOne_other owner u _ x hne⟩)

/-- Read step of the equivalence for the owner: opening conversation d
turns the rescan into the incremental read-state update with the size of
the newly read batch. -/
theorem rescan_open_owner (owner d : Nat) (store : List Message)
    (hids : (store.map Message.id).Nodup) :
    rescan owner (fetchMessagesStore owner d store) =
      incRead d (unreadIds owner d store).length (rescan owner store) := by
  by_cases hemp : (unreadIds owner d store).isEmpty = true
  · have h1 : fetchMessagesStore owner d store = store := by
      unfold fetchMessagesStore
      rw [if_pos hemp]
    have hlen : (unreadIds owner d store).length = 0 := by
      rw [List.isEmpty_iff.mp hemp]
      rfl
    rw [h1, hlen, incRead_zero]
  · have h1 : fetchMessagesStore owner d store =
        markRead owner (unreadIds owner d store) store := by
      unfold fetchMessagesStore
      rw [if_neg hemp]
    have hg : ∀ x ∈ (store.filter (involvedb owner)).reverse,
        otherDoctor owner (markOne owner (unreadIds owner d store) x) =
          otherDoctor owner x ∧
        (markOne owner (unreadIds owner d store) x).message = x.message ∧
        (markOne owner (unreadIds owner d store) x).created_at = x.created_at :=
      fun x _ => ⟨otherDoctor_markOne owner owner _ x, markOne_message owner _ x,
        markOne_created_at owner _ x⟩
    have hgd : ∀ x ∈ (store.filter (involvedb owner)).reverse,
        otherDoctor owner x = d →
        unreadForOwner owner (markOne owner (unreadIds owner d store) x) = false := by
      intro x hxL ho
      have hx : x ∈ store := (List.mem_filter.mp (List.mem_reverse.mp hxL)).1
      have hinv : involvedb owner x = true :=
        (List.mem_filter.mp (List.mem_reverse.mp hxL)).2
      exact markOne_clears_thread owner d store x hx
        (threadFilter_of_other owner d x hinv ho)
    have hgo : ∀ x ∈ (store.filter (involvedb owner)).reverse,
        otherDoctor owner x ≠ d →
        unreadForOwner owner (markOne owner (unreadIds owner d store) x) =
          unreadForOwner owner x := by
      intro x hxL ho
      have hx : x ∈ store := (List.mem_filter.mp (List.mem_reverse.mp hxL)).1
      exact unreadForOwner_markOne_pres owner d store x hids hx ho
    rw [h1]
    unfold rescan markRead
    rw [filter_map_of_pred (involvedb owner) (markOne owner (unreadIds owner d store)) store
          (fun x _ => involvedb_markOne owner owner _ x),
        ← List.map_reverse,
        fetchConversations_eq_newOnes, fetchConversations_eq_newOnes,
        newOnes_map_read owner d (markOne owner (unreadIds owner d store))
          ((store.filter (involvedb owner)).reverse) [] hg hgd hgo]
    unfold incRead
    apply List.map_congr_left
    intro c hc
    by_cases hck : c.doctor_id = d
    · have hb : (c.doctor_id == d) = true := beq_iff_eq.mpr hck
      rw [if_pos hb, if_pos hb]
      have hcu := newOnes_unread owner ((store.filter (involvedb owner)).reverse) [] c hc
      rw [hck] at hcu
      rw [hcu, unreadIds_length_eq_cnt owner d store, Nat.sub_self]
    · have hb : (c.doctor_id == d) = false := beq_eq_false_iff_ne.mpr hck
      rw [if_neg (by rw [hb]; exact Bool.false_ne_true),
          if_neg (by rw [hb]; exact Bool.false_ne_true)]

/-- A well-formed send preserves the store invariant. -/
theorem storeInv_send (a b : Nat) (t : String) (nid nt : Nat) (store : List Message)
    (hinv : StoreInv store) (hwf : wfOpB store (Op.send a b t nid nt) = true) :
    StoreInv ((sendMessage a b t nid nt store).2) := by
  by_cases ht : (jsTrim t == "") = true
  · have h0 : (sendMessage a b t nid nt store).2 = store := by
      unfold sendMessage
      rw [if_pos ht]
    rw [h0]
    exact hinv
  · have h2 : (sendMessage a b t nid nt store).2 = store ++ [sentRow a b t nid nt] := by
      unfold sendMessage sentRow
      rw [if_neg ht]
    have hall : store.all (fun m => (decide (m.created_at < nt)) && !(m.id == nid)) = true := by
      unfold wfOpB at hwf
      rcases Bool.or_eq_true _ _ |>.mp hwf with h | h
      · exact absurd h ht
      · exact h
    rw [h2]
    constructor
    · rw [List.pairwise_append]
      refine ⟨hinv.1, by simp, ?_⟩
      intro x hx y hy
      rw [List.mem_singleton.mp hy]
      exact of_decide_eq_true
        (Bool.and_eq_true _ _ |>.mp (List.all_eq_true.mp hall x hx)).1
    · rw [List.map_append, List.nodup_append]
      refine ⟨hinv.2, by simp, ?_⟩
      intro i hi hi2
      simp only [List.map_cons, List.map_nil, List.mem_singleton] at hi2
      obtain ⟨x, hx, hxi⟩ := List.mem_map.mp hi
      have hne := (Bool.and_eq_true _ _ |>.mp (List.all_eq_true.mp hall x hx)).2
      rw [hi2] at hxi
      exact absurd (beq_iff_eq.mpr hxi) (by simpa using hne)

/-- Opening a conversation preserves the store invariant (only is_read
changes). -/
theorem storeInv_open (u d : Nat) (store : List Message) (hinv : StoreInv store) :
    StoreInv (fetchMessagesStore u d store) := by
  unfold fetchMessagesStore
  split
  · exact hinv
  · constructor
    · unfold markRead
      rw [List.pairwise_map]
      refine hinv.1.imp ?_
      intro x y hxy
      rw [markOne_created_at, markOne_created_at]
      exact hxy
    · unfold markRead
      have h : (store.map (markOne u (unreadIds u d store))).map Message.id =
          store.map Message.id := by
        rw [List.map_map]
        exact List.map_congr_left (fun m _ => markOne_id u (unreadIds u d store) m)
      rw [h]
      exact hinv.2

/-- Any well-formed step preserves the store invariant. -/
theorem storeInv_applyOp (op : Op) (store : List Message) (hinv : StoreInv store)
    (hwf : wfOpB store op = true) : StoreInv (applyStoreOp op store) := by
  cases op with
  | send a b t nid nt => exact storeInv_send a b t nid nt store hinv hwf
  | openConv u d => exact storeInv_open u d store hinv

/-- Lockstep invariant: while the interleaving runs, the incrementally
maintained conversation list stays equal to the full rescan of the current
store, and the store invariant is preserved. -/
theorem runPair_invariant (owner : Nat) (ops : List Op) : ∀ (store : List Message)
    (S : List Conversation), StoreInv store → wfOpsB store ops = true →
    S = rescan owner store →
    (runPair owner ops store S).2 = rescan owner (runPair owner ops store S).1 ∧
    StoreInv (runPair owner ops store S).1 := by
  induction ops with
  | nil =>
    intro store S hinv _ hS
    exact ⟨hS, hinv⟩
  | cons op ops ih =>
    intro store S hinv hwf hS
    have hwf1 : wfOpB store op = true ∧ wfOpsB (applyStoreOp op store) ops = true := by
      unfold wfOpsB at hwf
      exact Bool.and_eq_true _ _ |>.mp hwf
    have hstep : applyIncOp owner op store S = rescan owner (applyStoreOp op store) := by
      cases op with
      | send a b t nid nt =>
        simp only [applyIncOp, applyStoreOp]
        by_cases htr : (jsTrim t == "") = true
        · rw [if_pos htr]
          have h0 : (sendMessage a b t nid nt store).2 = store := by
            unfold sendMessage
            rw [if_pos htr]
          rw [h0, hS]
        · rw [if_neg htr, rescan_send owner a b t nid nt store htr, hS]
      | openConv u d =>
        simp only [applyIncOp, applyStoreOp]
        by_cases hu : (u == owner) = true
        · have hueq : u = owner := beq_iff_eq.mp hu
          subst hueq
          rw [if_pos hu, hS, rescan_open_owner u d store hinv.2]
        · have hne : u ≠ owner := fun he => hu (beq_iff_eq.mpr he)
          rw [if_neg hu, rescan_open_other owner u d store hne, hS]
    exact ih (applyStoreOp op store) (applyIncOp owner op store S)
      (storeInv_applyOp op store hinv hwf1.1) hwf1.2 hstep

/-- Two permutations of the same rows that are both sorted by created_at
descending coincide when the timestamps are distinct. -/
theorem sorted_desc_perm_unique : ∀ (L1 L2 : List Message),
    L1.Perm L2 →
    L1.Pairwise (fun a b => b.created_at ≤ a.created_at) →
    L2.Pairwise (fun a b => b.created_at ≤ a.created_at) →
    (L2.map Message.created_at).Nodup → L1 = L2 := by
  intro L1
  induction L1 with
  | nil =>
    intro L2 hperm _ _ _
    exact (hperm.symm.eq_nil).symm
  | cons a t1 ih =>
    intro L2 hperm h1 h2 hnd
    cases L2 with
    | nil => exact absurd hperm.eq_nil (by simp)
    | cons b t2 =>
      by_cases hab : a = b
      · subst hab
        rw [ih t2 hperm.cons_inv (List.pairwise_cons.mp h1).2 (List.pairwise_cons.mp h2).2
            ((List.nodup_cons.mp (by simpa using hnd)).2)]
      · exfalso
        have ha2 : a ∈ b :: t2 := hperm.mem_iff.mp (List.mem_cons.mpr (Or.inl rfl))
        have hat2 : a ∈ t2 := by
          rcases List.mem_cons.mp ha2 with h | h
          · exact absurd h hab
          · exact h
        have hb1 : b ∈ a :: t1 := hperm.mem_iff.mpr (List.mem_cons.mpr (Or.inl rfl))
        have hbt1 : b ∈ t1 := by
          rcases List.mem_cons.mp hb1 with h | h
          · exact absurd h.symm hab
          · exact h
        have hba : b.created_at ≤ a.created_at := (List.pairwise_cons.mp h1).1 b hbt1
        have hab2 : a.created_at ≤ b.created_at := (List.pairwise_cons.mp h2).1 a hat2
        have heq : a.created_at = b.created_at := Nat.le_antisymm hab2 hba
        have hmem : b.created_at ∈ t2.map Message.created_at := by
          rw [← heq]
          exact List.mem_map.mpr ⟨a, hat2, rfl⟩
        exact (List.nodup_cons.mp (by simpa using hnd)).1 hmem

/-- C1: for every owner and every snapshot of the message store reached by a
well-formed interleaving of sends and reads applied identically to both
paths, the conversation list produced by a full rescan (fetchConversations
over the conversation query result, i.e. any created_at-descending ordering
of the rows involving the owner) equals the conversation list maintained
incrementally by applying the new-message and read-state events of the
specification. -/
theorem dm_C1_incremental_equiv (owner : Nat) (ops : List Op) (Q : List Message)
    (hwf : wfOpsB [] ops = true)
    (hsort : Q.Pairwise (fun a b => b.created_at ≤ a.created_at))
    (hperm : Q.Perm (((runPair owner ops [] []).1).filter (involvedb owner))) :
    fetchConversations owner Q = (runPair owner ops [] []).2 := by
  have hinv0 : StoreInv ([] : List Message) := ⟨List.Pairwise.nil, List.Pairwise.nil⟩
  obtain ⟨heq, hinvF⟩ := runPair_invariant owner ops [] [] hinv0 hwf rfl
  have hsortR : (((runPair owner ops [] []).1.filter (involvedb owner)).reverse).Pairwise
      (fun a b => b.created_at ≤ a.created_at) := by
    rw [List.pairwise_reverse]
    exact (hinvF.1.filter (involvedb owner)).imp (fun hab => Nat.le_of_lt hab)
  have hndR : ((((runPair owner ops [] []).1.filter (involvedb owner)).reverse).map
      Message.created_at).Nodup := by
    apply List.pairwise_map.mpr
    rw [List.pairwise_reverse]
    exact (hinvF.1.filter (involvedb owner)).imp (fun hab => (Nat.ne_of_lt hab).symm)
  have hQR : Q = ((runPair owner ops [] []).1.filter (involvedb owner)).reverse := by
    exact sorted_desc_perm_unique Q _ (hperm.trans (List.reverse_perm _).symm)
      hsort hsortR hndR
  rw [hQR, heq]
  rfl

/-- Witness for C1 on a concrete interleaving: user 2 messages user 1, user
1 replies, then user 1 opens the conversation; the rescan of the final
store equals the incrementally maintained list of owner 1. -/
theorem dm_C1_incremental_equiv_witness :
    wfOpsB []
        [Op.send 2 1 "hello" 0 1, Op.send 1 2 "yo" 1 2, Op.openConv 1 2] = true ∧
    ([{ id := 1, sender_id := 1, recipient_id := 2, message := "yo",
        is_read := false, created_at := 2 },
      { id := 0, sender_id := 2, recipient_id := 1, message := "hello",
        is_read := true, created_at := 1 }] : List Message).Pairwise
      (fun a b => b.created_at ≤ a.created_at) ∧
    ([{ id := 1, sender_id := 1, recipient_id := 2, message := "yo",
        is_read := false, created_at := 2 },
      { id := 0, sender_id := 2, recipient_id := 1, message := "hello",
        is_read := true, created_at := 1 }] : List Message).Perm
      (((runPair 1 [Op.send 2 1 "hello" 0 1, Op.send 1 2 "yo" 1 2, Op.openConv 1 2]
          [] []).1).filter (involvedb 1)) ∧
    fetchConversations 1
        [{ id := 1, sender_id := 1, recipient_id := 2, message := "yo",
           is_read := false, created_at := 2 },
         { id := 0, sender_id := 2, recipient_id := 1, message := "hello",
           is_read := true, created_at := 1 }] =
      (runPair 1 [Op.send 2 1 "hello" 0 1, Op.send 1 2 "yo" 1 2, Op.openConv 1 2]
        [] []).2 :=
  ⟨by decide, by decide, by decide,
   dm_C1_incremental_equiv 1
     [Op.send 2 1 "hello" 0 1, Op.send 1 2 "yo" 1 2, Op.openConv 1 2]
     [{ id := 1, sender_id := 1, recipient_id := 2, message := "yo",
        is_read := false, created_at := 2 },
      { id := 0, sender_id := 2, recipient_id := 1, message := "hello",
        is_read := true, created_at := 1 }]
     (by decide) (by decide) (by decide)⟩
